import Mathlib

/-!
Verification of the slykey text-expansion engine core.

The development shallowly embeds the two core modules of the repository,
`src/core/engine.rs` (typed-buffer tracker, trigger matcher,
modifier-deferred dispatcher, action executor) and `src/core/expansion.rs`
(two-pass macro language), as executable Lean definitions, and settles the
frozen claims about them.

Modelling conventions:
* Rust `String` and `&str` values are modelled as `List Char` (named `Str`).
  All operations the code uses (`push`, `pop`, `clear`, `chars().count()`,
  `ends_with`, `split_once`, `trim`, byte search for the ASCII substrings
  `\x7b\x7b` and `\x7d\x7d`, ...) coincide on this model because ASCII bytes
  never occur inside a multi-byte UTF-8 character.
* The runtime environment (current date/time, the external shell used by the
  CMD macro, the emoji shortcode table of the `emojis` crate, and the fallible
  outbound `OutputSink`) is modelled as an explicit `Env` record of oracles.
* Engine methods that mutate `&mut self` and call the sink become functions
  `EngineState → EngineState × List SinkCall × Option Str`: the final state,
  the ordered trace of sink calls issued, and `some msg` when the Rust
  function would return `Err` (state changes made before an early `?` return
  persist, exactly as with `&mut self` in Rust).
* `eprintln!` debug logging and the Linux desktop-notification side channel
  (which the engine ignores failures of) are not observable in any claim and
  are not modelled; the `notification_body` values are still threaded.
-/

/-- Rust strings, modelled as their sequence of characters. -/
abbrev Str := List Char

deriving instance DecidableEq for Except

/-- `char::to_ascii_uppercase`: ASCII lowercase letters are shifted to
uppercase, every other character is unchanged.  Stated on `Char.toNat`
(97..122 are exactly the codepoints of the ASCII lowercase letters). -/
def asciiUpperChar (c : Char) : Char :=
  if 97 ≤ c.toNat ∧ c.toNat ≤ 122 then Char.ofNat (c.toNat - 32) else c

/-- `char::to_ascii_lowercase`: ASCII uppercase letters (codepoints 65..90)
are shifted to lowercase, every other character is unchanged. -/
def asciiLowerChar (c : Char) : Char :=
  if 65 ≤ c.toNat ∧ c.toNat ≤ 90 then Char.ofNat (c.toNat + 32) else c

/-- `str::to_ascii_uppercase`, characterwise. -/
def asciiUpperStr (s : Str) : Str := s.map asciiUpperChar

/-- `str::to_ascii_lowercase`, characterwise. -/
def asciiLowerStr (s : Str) : Str := s.map asciiLowerChar

/-- `str::eq_ignore_ascii_case`.  Byte-wise ASCII-case-insensitive equality
is equivalent to equality of the ASCII-uppercased strings. -/
def eqIgnoreAsciiCase (a b : Str) : Bool :=
  asciiUpperStr a = asciiUpperStr b

/-- `char::is_whitespace` (the Unicode `White_Space` property), the
predicate used by Rust's `str::trim`. -/
def isRustWhitespace (c : Char) : Bool :=
  decide (c.toNat = 0x20 ∨ c.toNat = 0x9 ∨ c.toNat = 0xA ∨ c.toNat = 0xB ∨
    c.toNat = 0xC ∨ c.toNat = 0xD ∨ c.toNat = 0x85 ∨ c.toNat = 0xA0 ∨
    c.toNat = 0x1680 ∨ (0x2000 ≤ c.toNat ∧ c.toNat ≤ 0x200A) ∨
    c.toNat = 0x2028 ∨ c.toNat = 0x2029 ∨ c.toNat = 0x202F ∨
    c.toNat = 0x205F ∨ c.toNat = 0x3000)

/-- `str::trim`: remove leading and trailing whitespace. -/
def trimStr (s : Str) : Str :=
  ((s.dropWhile isRustWhitespace).reverse.dropWhile isRustWhitespace).reverse

/-- `str::trim_matches(':')`: remove all leading and trailing colons. -/
def trimColonsStr (s : Str) : Str :=
  ((s.dropWhile (· = ':')).reverse.dropWhile (· = ':')).reverse

/-- `str::trim_end_matches(['\r', '\n'])`: remove trailing CR/LF characters. -/
def trimEndCrLf (s : Str) : Str :=
  (s.reverse.dropWhile (fun c => c = '\r' ∨ c = '\n')).reverse

/-- `str::replace(a, <one-char string>)`, characterwise substitution. -/
def replaceCharStr (s : Str) (a b : Char) : Str :=
  s.map (fun c => if c = a then b else c)

/-- `str::replace(a, "")`: delete every occurrence of the character. -/
def removeCharStr (s : Str) (a : Char) : Str :=
  s.filter (fun c => ¬ c = a)

/-- `str::split_once(sep)` for a one-character separator: split at the first
occurrence, the separator itself belonging to neither side. -/
def splitOnceChar (sep : Char) : Str → Option (Str × Str)
  | [] => none
  | c :: rest =>
    if c = sep then some ([], rest)
    else (splitOnceChar sep rest).map (fun p => (c :: p.1, p.2))

/-- The search `find_macro_end` performs: locate the first occurrence of
the two-character sequence \x7d\x7d and split the string there, returning
the part before it and the part after it. -/
def splitAtMacroEnd : Str → Option (Str × Str)
  | [] => none
  | c :: rest =>
    match rest with
    | [] => none
    | c₂ :: rest₂ =>
      if c = '}' ∧ c₂ = '}' then some ([], rest₂)
      else (splitAtMacroEnd rest).map (fun p => (c :: p.1, p.2))

/-- `Vec<String>::join(sep)`. -/
def joinWithStr (sep : Str) : List Str → Str
  | [] => []
  | [s] => s
  | s :: rest => s ++ sep ++ joinWithStr sep rest

/-- Decimal digit reading used by Rust's integer `FromStr`: value of an
all-digit, non-empty string. -/
def parseDecDigits (s : Str) : Option Nat :=
  if s = [] then none
  else
    s.foldl (fun acc c =>
      match acc with
      | none => none
      | some n => if 48 ≤ c.toNat ∧ c.toNat ≤ 57 then some (n * 10 + (c.toNat - 48)) else none)
      (some 0)

/-- `u64::from_str`: an optional leading plus sign, then decimal digits;
values that overflow `u64` are rejected. -/
def parseU64Dec (s : Str) : Option Nat :=
  let digits := match s with
    | '+' :: rest => rest
    | _ => s
  match parseDecDigits digits with
  | some n => if n < 2 ^ 64 then some n else none
  | none => none

/-- `i64::from_str`: an optional sign, then decimal digits; values outside
the `i64` range are rejected. -/
def parseI64Dec (s : Str) : Option Int :=
  match s with
  | '-' :: rest =>
    match parseDecDigits rest with
    | some n => if n ≤ 2 ^ 63 then some (-(n : Int)) else none
    | none => none
  | '+' :: rest =>
    match parseDecDigits rest with
    | some n => if n < 2 ^ 63 then some (n : Int) else none
    | none => none
  | _ =>
    match parseDecDigits s with
    | some n => if n < 2 ^ 63 then some (n : Int) else none
    | none => none

/-! ## Data model (`src/io/output.rs`, `src/io/events.rs`, `src/config.rs`) -/

/-- `SpecialKey` from `src/io/output.rs`: the closed set of synthetic keys
the output sink can tap. -/
inductive SpecialKey where
  | Enter | Tab | Escape | Backspace | Space
  | Left | Right | Up | Down | Home | Endk
  | Delete | PageUp | PageDown
  | F1 | F2 | F3 | F4 | F5 | F6 | F7 | F8 | F9 | F10 | F11 | F12
  deriving DecidableEq, Repr

/-- `OutputAction` from `src/core/expansion.rs`: one element of an
expansion's ordered action list.  (`Endk` stands in for the source's
`End` variant, which is a keyword in Lean.) -/
inductive OutputAction where
  | Text (s : Str)
  | Key (k : SpecialKey)
  | SleepMs (ms : Nat)
  | MoveCaret (amount : Int)
  deriving DecidableEq, Repr

/-- `SpecialInputKey` from `src/io/events.rs`, including the modifier and
CapsLock variants that `engine.rs` and `platform/x11_rdev.rs` use. -/
inductive SpecialInputKey where
  | Enter | Tab | Backspace | Escape
  | Shift | Ctrl | Alt | Meta | CapsLock
  | Left | Right | Up | Down | Home | Endk
  | Delete | PageUp | PageDown
  | F1 | F2 | F3 | F4 | F5 | F6 | F7 | F8 | F9 | F10 | F11 | F12
  | Unknown
  deriving DecidableEq, Repr

/-- `KeyEventKind` from `src/io/events.rs`. -/
inductive KeyEventKind where
  | Press | Release
  deriving DecidableEq, Repr

/-- `KeyEvent` from `src/io/events.rs`. -/
structure KeyEvent where
  kind : KeyEventKind
  printable : Option Char
  special : Option SpecialInputKey
  is_injected : Bool
  deriving DecidableEq, Repr

/-- `MatchBehavior` from `src/config.rs`. -/
inductive MatchBehavior where
  | Immediate | Boundary
  deriving DecidableEq, Repr

/-- `ExpansionRule` from `src/config.rs`. -/
structure ExpansionRule where
  trigger : Str
  expansion : Str
  deriving DecidableEq, Repr

/-- The fields of `AppConfig` (`src/config.rs`) that the engine core reads.
`snippets`, `notifications` and `watch` only drive the tray UI, the desktop
notifier and the file watcher and are omitted.  The `globals` `HashMap` is
modelled as an association list; configuration validation rejects duplicate
names (case-insensitively), so the arbitrary iteration order of the map is
immaterial for well-formed configurations. -/
structure AppConfig where
  expansions : List ExpansionRule
  globals : List (Str × Str)
  match_behavior : MatchBehavior
  boundary_chars : Option Str
  deriving DecidableEq, Repr

/-- `AppConfig::boundary_chars()`: the configured set, or the default
boundary characters (space, tab, newline and closing punctuation). -/
def AppConfig.boundaryChars (cfg : AppConfig) : Str :=
  match cfg.boundary_chars with
  | some s => s
  | none => [' ', '\t', '\n', '.', ',', ';', ':', '!', '?', ')', ']', '\x7d', '>', '\'', '\x22']

/-- The external collaborators of the engine core, as oracles:
the clock strings `Local::now()` would be formatted to, the shell backing
the CMD macro, the `emojis::get_by_shortcode` table, and the two fallible
`OutputSink` operations (`none` models `Ok(())`, `some msg` models an
`Err` with that message). -/
structure Env where
  dateStr : Str
  timeStr : Str
  datetimeStr : Str
  cmdResult : Str → Except Str Str
  emojiLookup : Str → Option Str
  sinkBackspaces : Nat → Option Str
  sinkActions : List OutputAction → Option Str

/-- `ActiveModifiers` from `src/core/engine.rs`. -/
structure ActiveModifiers where
  shift : Bool := false
  ctrl : Bool := false
  alt : Bool := false
  meta : Bool := false
  deriving DecidableEq, Repr

/-- `ActiveModifiers::any_active`. -/
def ActiveModifiers.anyActive (m : ActiveModifiers) : Bool :=
  m.shift || m.ctrl || m.alt || m.meta

/-- `PendingExpansion` from `src/core/engine.rs`. -/
structure PendingExpansion where
  expected_buffer : Str
  backspaces : Nat
  actions : List OutputAction
  notification_body : Option Str
  deriving DecidableEq, Repr

/-- The mutable state of `Engine` (`src/core/engine.rs`).  The
`output: Option<Arc<dyn OutputSink>>` field is split into the Boolean
`hasOutput` here plus the sink oracles in `Env`; `debug` only gates
`eprintln!` logging and is omitted. -/
structure EngineState where
  config : AppConfig
  hasOutput : Bool
  typed_buffer : Str
  max_trigger_chars : Nat
  active_modifiers : ActiveModifiers
  pending_expansion : Option PendingExpansion
  deriving DecidableEq, Repr

/-- One call observed at the `OutputSink` boundary. -/
inductive SinkCall where
  | backspaces (count : Nat)
  | actions (acts : List OutputAction)
  deriving DecidableEq, Repr

/-- Result of an engine method: the state after the call, the ordered trace
of sink calls it issued, and the error message if it returned `Err`. -/
abbrev EResult := EngineState × List SinkCall × Option Str

/-! ## Macro / template language (`src/core/expansion.rs`)

Termination of the recursive template renderer is by a lexicographic
measure: the number of (occurrences of) global-table names not yet on the
resolution stack, then the length of the input.  The next lemmas provide
the arithmetic for that measure. -/

theorem splitAtMacroEnd_len {s : Str} :
    ∀ {b a : Str}, splitAtMacroEnd s = some (b, a) → b.length + 2 + a.length = s.length := by
  induction s with
  | nil => intro b a h; simp [splitAtMacroEnd] at h
  | cons c rest ih =>
    intro b a h
    cases rest with
    | nil => simp [splitAtMacroEnd] at h
    | cons c₂ rest₂ =>
      rw [splitAtMacroEnd] at h
      by_cases hb : c = '}' ∧ c₂ = '}'
      · rw [if_pos hb] at h
        cases h
        simp only [List.length_nil, List.length_cons]
        omega
      · rw [if_neg hb] at h
        cases hsub : splitAtMacroEnd (c₂ :: rest₂) with
        | none => simp [hsub] at h
        | some p =>
          obtain ⟨p₁, p₂⟩ := p
          simp only [hsub, Option.map_some'] at h
          injection h with hpair
          injection hpair with hb1 ha1
          subst hb1
          subst ha1
          have hlen := ih hsub
          simp only [List.length_cons] at *
          omega

theorem splitOnceChar_len {sep : Char} {s : Str} :
    ∀ {x y : Str}, splitOnceChar sep s = some (x, y) → x.length + 1 + y.length = s.length := by
  induction s with
  | nil => intro x y h; simp [splitOnceChar] at h
  | cons c rest ih =>
    intro x y h
    rw [splitOnceChar] at h
    by_cases hc : c = sep
    · rw [if_pos hc] at h
      cases h
      simp only [List.length_nil, List.length_cons]
      omega
    · rw [if_neg hc] at h
      cases hsub : splitOnceChar sep rest with
      | none => simp [hsub] at h
      | some p =>
        obtain ⟨p₁, p₂⟩ := p
        simp only [hsub, Option.map_some'] at h
        injection h with hpair
        injection hpair with hb1 ha1
        subst hb1
        subst ha1
        have hlen := ih hsub
        simp only [List.length_cons] at *
        omega

theorem trimStr_length_le (s : Str) : (trimStr s).length ≤ s.length := by
  unfold trimStr
  rw [List.length_reverse]
  calc ((s.dropWhile isRustWhitespace).reverse.dropWhile isRustWhitespace).length
      ≤ (s.dropWhile isRustWhitespace).reverse.length :=
        (List.dropWhile_sublist _).length_le
    _ = (s.dropWhile isRustWhitespace).length := List.length_reverse _
    _ ≤ s.length := (List.dropWhile_sublist _).length_le

theorem toNat_char_ofNat_lt {n : Nat} (h : n < 55296) : (Char.ofNat n).toNat = n := by
  rw [Char.ofNat, dif_pos (Or.inl h)]
  rfl

theorem asciiUpperChar_idem (c : Char) : asciiUpperChar (asciiUpperChar c) = asciiUpperChar c := by
  unfold asciiUpperChar
  by_cases h : 97 ≤ c.toNat ∧ c.toNat ≤ 122
  · rw [if_pos h]
    have hv : (Char.ofNat (c.toNat - 32)).toNat = c.toNat - 32 :=
      toNat_char_ofNat_lt (by omega)
    rw [if_neg (by rw [hv]; omega)]
  · rw [if_neg h, if_neg h]

theorem asciiUpperStr_idem (s : Str) : asciiUpperStr (asciiUpperStr s) = asciiUpperStr s := by
  induction s with
  | nil => rfl
  | cons c rest ih =>
    simp only [asciiUpperStr, List.map_cons] at *
    rw [asciiUpperChar_idem, ih]

/-- `lookup_global_macro_case_insensitive`: scan the global table for the
first name matching ASCII-case-insensitively. -/
def lookupGlobalCaseInsensitive (globals : List (Str × Str)) (name : Str) : Option Str :=
  match globals with
  | [] => none
  | (gname, value) :: rest =>
    if eqIgnoreAsciiCase gname name then some value else lookupGlobalCaseInsensitive rest name

/-- Termination measure for template rendering: how many entries of the
global table are not yet on the resolution stack (counted with
multiplicity, names taken ASCII-uppercased). -/
def unresolvedGlobalCount (globals : List (Str × Str)) (stack : List Str) : Nat :=
  ((globals.map (fun p => asciiUpperStr p.1)).filter (fun k => decide (k ∉ stack))).length

theorem lookupGlobalCaseInsensitive_mem {globals : List (Str × Str)} {n v : Str}
    (h : lookupGlobalCaseInsensitive globals n = some v) :
    asciiUpperStr n ∈ globals.map (fun p => asciiUpperStr p.1) := by
  induction globals with
  | nil => simp [lookupGlobalCaseInsensitive] at h
  | cons g rest ih =>
    obtain ⟨gname, value⟩ := g
    rw [lookupGlobalCaseInsensitive] at h
    by_cases he : eqIgnoreAsciiCase gname n = true
    · have : asciiUpperStr gname = asciiUpperStr n := by
        simpa [eqIgnoreAsciiCase] using he
      simp [this]
    · rw [if_neg (by simpa using he)] at h
      simpa using Or.inr (ih h)

theorem filter_length_mono {α : Type} {p q : α → Bool} (h : ∀ x, q x = true → p x = true)
    (l : List α) : (l.filter q).length ≤ (l.filter p).length := by
  induction l with
  | nil => simp
  | cons x rest ih =>
    have hih := ih
    rw [List.filter_cons, List.filter_cons]
    cases hq : q x with
    | true =>
      have hp := h x hq
      rw [hp, if_pos rfl, if_pos rfl]
      simp only [List.length_cons]
      omega
    | false =>
      rw [if_neg (by simp)]
      cases hp : p x with
      | true =>
        rw [if_pos rfl]
        simp only [List.length_cons]
        omega
      | false =>
        rw [if_neg (by simp)]
        omega

theorem count_filter_push_lt {l stack : List Str} {n : Str}
    (hmem : n ∈ l) (hstack : n ∉ stack) :
    (l.filter (fun k => decide (k ∉ stack ++ [n]))).length <
      (l.filter (fun k => decide (k ∉ stack))).length := by
  induction l with
  | nil => simp at hmem
  | cons x rest ih =>
    have hmono := filter_length_mono (p := fun k => decide (k ∉ stack))
      (q := fun k => decide (k ∉ stack ++ [n])) (fun x hx => by
        simp only [decide_eq_true_eq, List.mem_append] at *
        intro hc
        exact hx (Or.inl hc)) rest
    rw [List.filter_cons, List.filter_cons]
    by_cases hx : x = n
    · subst hx
      have h1 : (decide (x ∉ stack ++ [x])) = false := by simp
      have h2 : (decide (x ∉ stack)) = true := by simpa using hstack
      rw [h1, h2, if_neg (by simp), if_pos rfl]
      simp only [List.length_cons]
      omega
    · have hsame : (decide (x ∉ stack ++ [n])) = (decide (x ∉ stack)) := by
        by_cases hxs : x ∈ stack
        · simp [hxs]
        · simp [hxs, hx]
      rw [hsame]
      have hmem' : n ∈ rest := by
        cases hmem with
        | head => exact absurd rfl hx
        | tail _ h => exact h
      have hlt := ih hmem'
      cases hd : decide (x ∉ stack) with
      | true =>
        rw [if_pos rfl, if_pos rfl]
        simp only [List.length_cons]
        omega
      | false =>
        rw [if_neg (by simp), if_neg (by simp)]
        omega

theorem unresolvedGlobalCount_push {globals : List (Str × Str)} {stack : List Str} {n : Str}
    (hmem : n ∈ globals.map (fun p => asciiUpperStr p.1)) (hstack : n ∉ stack) :
    unresolvedGlobalCount globals (stack ++ [n]) < unresolvedGlobalCount globals stack :=
  count_filter_push_lt hmem hstack

/-- `is_template_macro_with_argument` (`expansion.rs`): the names whose
`name: value` macros pass 1 resolves itself; every other `name: value`
body is preserved literally for pass 2. -/
def isTemplateMacroWithArgument (name : Str) : Bool :=
  decide (asciiUpperStr (trimStr name) = "CMD".toList ∨
    asciiUpperStr (trimStr name) = "COMMAND".toList ∨
    asciiUpperStr (trimStr name) = "EMOJI".toList)

/-- The error text of `bail!("unsupported macro: '{name}'")`. -/
def unsupportedMacroMsg (name : Str) : Str :=
  "unsupported macro: \x27".toList ++ name ++ "\x27".toList

/-- The error text of `bail!("global macro cycle detected: {}", chain.join(" -> "))`. -/
def cycleMsg (chain : List Str) : Str :=
  "global macro cycle detected: ".toList ++ joinWithStr " -> ".toList chain

/-- The error of an unterminated macro.  (The source message also carries
the byte offset of the opening braces; no claim depends on it and it is
elided here.) -/
def unclosedMacroMsg : Str := "unclosed macro".toList

/-- The error text of `bail!("unknown emoji shortcode: '{normalized_shortcode}'")`. -/
def unknownEmojiMsg (s : Str) : Str :=
  "unknown emoji shortcode: \x27".toList ++ s ++ "\x27".toList

/-- The error text of `bail!("unknown special key in macro: {other}")`. -/
def unknownSpecialKeyMsg (s : Str) : Str :=
  "unknown special key in macro: ".toList ++ s

/-- Stand-in for the `ParseIntError` display an invalid `SLEEP_MS` /
`MOVE_CARET` number surfaces; no claim depends on its text. -/
def invalidNumberMsg : Str := "invalid digit found in string".toList

/-- The candidate shortcodes `render_emoji_macro` tries against the emoji
table, in order: the normalized code itself, the code with dashes replaced
by underscores, and the code with dashes removed. -/
def emojiLookupCandidates (normalized : Str) : List Str :=
  [normalized, replaceCharStr normalized '-' '_', removeCharStr normalized '-']

/-- `lookup_candidates.iter().find_map(|c| emojis::get_by_shortcode(c))`. -/
def firstEmojiLookupHit (env : Env) (normalized : Str) : Option Str :=
  (emojiLookupCandidates normalized).findSome? env.emojiLookup

/-- `render_template_macros_internal` (`expansion.rs`), pass 1 of the macro
language.  The bodies of its callees `render_template_macro`,
`resolve_global_template_macro`, `render_template_macro_with_argument`,
`render_emoji_macro` and `run_linux_command_macro` are inlined here (the
mutual recursion of the source is folded into one function so the name
pushed onto the resolution stack is syntactically ASCII-uppercased, which
drives the termination measure); the standalone definitions below restate
each callee in its source shape and are proved to agree with this one.
The `&mut Vec` resolution stack is passed functionally: the source pushes
before the recursive call and pops after it, which is exactly calling the
recursion with `stack ++ [name]` and continuing with `stack`. -/
def renderTemplateMacrosInternal (env : Env) (globals : List (Str × Str)) :
    Str → List Str → Except Str Str
  | [], _ => .ok []
  | c :: rest, stack =>
    match rest with
    | [] =>
      -- a single trailing character cannot start a macro: copy it
      match renderTemplateMacrosInternal env globals [] stack with
      | .error e => .error e
      | .ok r => .ok (c :: r)
    | c₂ :: rest₂ =>
      if hbrace : c = '{' ∧ c₂ = '{' then
        match hsplit : splitAtMacroEnd rest₂ with
        | none => .error unclosedMacroMsg
        | some (body, after) =>
          let piece : Except Str Str :=
            match hcolon : splitOnceChar ':' (trimStr body) with
            | some (name, value) =>
              if isTemplateMacroWithArgument name then
                -- render_template_macro_with_argument(name.trim(), value.trim())
                if asciiUpperStr (trimStr name) = "CMD".toList ∨
                    asciiUpperStr (trimStr name) = "COMMAND".toList then
                  -- run_linux_command_macro (Linux path)
                  match renderTemplateMacrosInternal env globals (trimStr value) stack with
                  | .error e => .error e
                  | .ok cmd =>
                    match env.cmdResult cmd with
                    | .error e => .error e
                    | .ok out => .ok (trimEndCrLf out)
                else if asciiUpperStr (trimStr name) = "EMOJI".toList then
                  -- render_emoji_macro
                  match renderTemplateMacrosInternal env globals (trimStr value) stack with
                  | .error e => .error e
                  | .ok sc =>
                    match firstEmojiLookupHit env (asciiLowerStr (trimColonsStr (trimStr sc))) with
                    | some emo => .ok emo
                    | none => .error (unknownEmojiMsg (asciiLowerStr (trimColonsStr (trimStr sc))))
                else
                  -- unreachable under the isTemplateMacroWithArgument guard
                  .error (unsupportedMacroMsg (asciiUpperStr (trimStr name)))
              else
                -- an action macro: keep the raw `(input[i..end + 2])` text
                .ok ('{' :: '{' :: (body ++ ['}', '}']))
            | none =>
              -- render_template_macro(body): DATETIME / DATE / TIME, else a global
              if asciiUpperStr (trimStr body) = "DATETIME".toList then .ok env.datetimeStr
              else if asciiUpperStr (trimStr body) = "DATE".toList then .ok env.dateStr
              else if asciiUpperStr (trimStr body) = "TIME".toList then .ok env.timeStr
              else
                -- resolve_global_template_macro(normalized_name)
                match hlook : lookupGlobalCaseInsensitive globals (asciiUpperStr (trimStr body)) with
                | none => .error (unsupportedMacroMsg (asciiUpperStr (trimStr body)))
                | some value =>
                  if hcyc : asciiUpperStr (trimStr body) ∈ stack then
                    .error (cycleMsg (stack ++ [asciiUpperStr (trimStr body)]))
                  else
                    renderTemplateMacrosInternal env globals value
                      (stack ++ [asciiUpperStr (trimStr body)])
          match piece with
          | .error e => .error e
          | .ok p =>
            match renderTemplateMacrosInternal env globals after stack with
            | .error e => .error e
            | .ok r => .ok (p ++ r)
      else
        match renderTemplateMacrosInternal env globals (c₂ :: rest₂) stack with
        | .error e => .error e
        | .ok r => .ok (c :: r)
  termination_by input stack => (unresolvedGlobalCount globals stack, input.length)
  decreasing_by
  · apply Prod.Lex.right
    simp only [List.length_cons, List.length_nil]
    omega
  · apply Prod.Lex.right
    have h1 := splitAtMacroEnd_len hsplit
    have h2 := splitOnceChar_len hcolon
    have h3 := trimStr_length_le body
    have h4 := trimStr_length_le value
    simp only [List.length_cons]
    omega
  · apply Prod.Lex.right
    have h1 := splitAtMacroEnd_len hsplit
    have h2 := splitOnceChar_len hcolon
    have h3 := trimStr_length_le body
    have h4 := trimStr_length_le value
    simp only [List.length_cons]
    omega
  · apply Prod.Lex.left
    have hm := lookupGlobalCaseInsensitive_mem hlook
    rw [asciiUpperStr_idem] at hm
    exact unresolvedGlobalCount_push hm hcyc
  · apply Prod.Lex.right
    have h1 := splitAtMacroEnd_len hsplit
    simp only [List.length_cons]
    omega
  · apply Prod.Lex.right
    simp only [List.length_cons]
    omega

/-- `render_template_macros` (`expansion.rs`): pass 1 with an empty
resolution stack. -/
def renderTemplateMacros (env : Env) (input : Str) (globals : List (Str × Str)) :
    Except Str Str :=
  renderTemplateMacrosInternal env globals input []

/-- `resolve_global_template_macro` (`expansion.rs`), in its source shape:
case-insensitive lookup, cycle check against the resolution stack, then a
recursive render of the global's value with the name pushed. -/
def resolveGlobalTemplateMacroName (env : Env) (globals : List (Str × Str))
    (name : Str) (stack : List Str) : Except Str Str :=
  match lookupGlobalCaseInsensitive globals name with
  | none => .error (unsupportedMacroMsg name)
  | some value =>
    if name ∈ stack then .error (cycleMsg (stack ++ [name]))
    else renderTemplateMacrosInternal env globals value (stack ++ [name])

/-- `render_template_macro` (`expansion.rs`), in its source shape: the
trimmed, ASCII-uppercased name selects DATETIME / DATE / TIME, and any
other name is resolved against the global table. -/
def renderTemplateMacroName (env : Env) (globals : List (Str × Str))
    (name : Str) (stack : List Str) : Except Str Str :=
  if asciiUpperStr (trimStr name) = "DATETIME".toList then .ok env.datetimeStr
  else if asciiUpperStr (trimStr name) = "DATE".toList then .ok env.dateStr
  else if asciiUpperStr (trimStr name) = "TIME".toList then .ok env.timeStr
  else resolveGlobalTemplateMacroName env globals (asciiUpperStr (trimStr name)) stack

/-- `render_emoji_macro` (`expansion.rs`), in its source shape: render the
shortcode itself, normalize (trim, strip colons, ASCII-lowercase), then try
the three lookup candidates. -/
def renderEmojiMacroArg (env : Env) (globals : List (Str × Str))
    (shortcode : Str) (stack : List Str) : Except Str Str :=
  match renderTemplateMacrosInternal env globals shortcode stack with
  | .error e => .error e
  | .ok sc =>
    match firstEmojiLookupHit env (asciiLowerStr (trimColonsStr (trimStr sc))) with
    | some emo => .ok emo
    | none => .error (unknownEmojiMsg (asciiLowerStr (trimColonsStr (trimStr sc))))

/-- `run_linux_command_macro` (`expansion.rs`), Linux path, in its source
shape: render the command text, run it through the external shell oracle,
and trim trailing CR/LF from its stdout. -/
def runLinuxCommandMacroArg (env : Env) (globals : List (Str × Str))
    (command : Str) (stack : List Str) : Except Str Str :=
  match renderTemplateMacrosInternal env globals command stack with
  | .error e => .error e
  | .ok cmd =>
    match env.cmdResult cmd with
    | .error e => .error e
    | .ok out => .ok (trimEndCrLf out)

/-- `render_template_macro_with_argument` (`expansion.rs`), in its source
shape. -/
def renderTemplateMacroWithArgument (env : Env) (globals : List (Str × Str))
    (name : Str) (value : Str) (stack : List Str) : Except Str Str :=
  if asciiUpperStr name = "CMD".toList ∨ asciiUpperStr name = "COMMAND".toList then
    runLinuxCommandMacroArg env globals value stack
  else if asciiUpperStr name = "EMOJI".toList then
    renderEmojiMacroArg env globals value stack
  else .error (unsupportedMacroMsg (asciiUpperStr name))

/-- `parse_special_key` (`expansion.rs`). -/
def parseSpecialKey (name : Str) : Except Str SpecialKey :=
  if asciiUpperStr name = "ENTER".toList ∨ asciiUpperStr name = "RETURN".toList then .ok .Enter
  else if asciiUpperStr name = "TAB".toList then .ok .Tab
  else if asciiUpperStr name = "ESC".toList ∨ asciiUpperStr name = "ESCAPE".toList then .ok .Escape
  else if asciiUpperStr name = "BACKSPACE".toList then .ok .Backspace
  else if asciiUpperStr name = "SPACE".toList then .ok .Space
  else if asciiUpperStr name = "LEFT".toList then .ok .Left
  else if asciiUpperStr name = "RIGHT".toList then .ok .Right
  else if asciiUpperStr name = "UP".toList then .ok .Up
  else if asciiUpperStr name = "DOWN".toList then .ok .Down
  else if asciiUpperStr name = "HOME".toList then .ok .Home
  else if asciiUpperStr name = "END".toList then .ok .Endk
  else if asciiUpperStr name = "DELETE".toList then .ok .Delete
  else if asciiUpperStr name = "PAGEUP".toList then .ok .PageUp
  else if asciiUpperStr name = "PAGEDOWN".toList then .ok .PageDown
  else if asciiUpperStr name = "F1".toList then .ok .F1
  else if asciiUpperStr name = "F2".toList then .ok .F2
  else if asciiUpperStr name = "F3".toList then .ok .F3
  else if asciiUpperStr name = "F4".toList then .ok .F4
  else if asciiUpperStr name = "F5".toList then .ok .F5
  else if asciiUpperStr name = "F6".toList then .ok .F6
  else if asciiUpperStr name = "F7".toList then .ok .F7
  else if asciiUpperStr name = "F8".toList then .ok .F8
  else if asciiUpperStr name = "F9".toList then .ok .F9
  else if asciiUpperStr name = "F10".toList then .ok .F10
  else if asciiUpperStr name = "F11".toList then .ok .F11
  else if asciiUpperStr name = "F12".toList then .ok .F12
  else .error (unknownSpecialKeyMsg (asciiUpperStr name))

/-- `parse_action_macro` (`expansion.rs`): classify one `name: value` body
into a `Key`, `SleepMs` or `MoveCaret` action; every other name, and any
body without a colon, is an unsupported macro. -/
def parseActionMacroBody (body : Str) : Except Str OutputAction :=
  match splitOnceChar ':' body with
  | some (name, value) =>
    if asciiUpperStr (trimStr name) = "KEY".toList then
      match parseSpecialKey (trimStr value) with
      | .error e => .error e
      | .ok k => .ok (.Key k)
    else if asciiUpperStr (trimStr name) = "SLEEP_MS".toList then
      match parseU64Dec (trimStr value) with
      | some ms => .ok (.SleepMs ms)
      | none => .error invalidNumberMsg
    else if asciiUpperStr (trimStr name) = "MOVE_CARET".toList ∨
        asciiUpperStr (trimStr name) = "CARET_MOVE".toList then
      match parseI64Dec (trimStr value) with
      | some amount => .ok (.MoveCaret amount)
      | none => .error invalidNumberMsg
    else .error (unsupportedMacroMsg (asciiUpperStr (trimStr name)))
  | none => .error (unsupportedMacroMsg body)

/-- The scanning loop of `parse_action_macros_only` (`expansion.rs`):
`acc` holds the actions pushed so far and `textBuf` the pending literal
run.  On a macro opening, the pending text is flushed first; a body with a
colon becomes an action via `parse_action_macro`, a body without a colon is
appended (with its braces) to the new pending text run. -/
def parseActionMacrosOnlyGo (input : Str) (acc : List OutputAction) (textBuf : Str) :
    Except Str (List OutputAction) :=
  match input with
  | [] => .ok (acc ++ if textBuf = [] then [] else [.Text textBuf])
  | c :: rest =>
    match rest with
    | [] => .ok (acc ++ [.Text (textBuf ++ [c])])
    | c₂ :: rest₂ =>
      if c = '{' ∧ c₂ = '{' then
        match hsplit : splitAtMacroEnd rest₂ with
        | none => .error unclosedMacroMsg
        | some (body, after) =>
          let acc' := acc ++ if textBuf = [] then [] else [.Text textBuf]
          if body.contains ':' then
            match parseActionMacroBody (trimStr body) with
            | .error e => .error e
            | .ok a => parseActionMacrosOnlyGo after (acc' ++ [a]) []
          else
            parseActionMacrosOnlyGo after acc' ('{' :: '{' :: (body ++ ['}', '}']))
      else
        parseActionMacrosOnlyGo (c₂ :: rest₂) acc (textBuf ++ [c])
  termination_by input.length
  decreasing_by
  · have h1 := splitAtMacroEnd_len hsplit
    simp only [List.length_cons]
    omega
  · have h1 := splitAtMacroEnd_len hsplit
    simp only [List.length_cons]
    omega
  · simp only [List.length_cons]
    omega

/-- `parse_action_macros_only` (`expansion.rs`), pass 2 of the macro
language. -/
def parseActionMacrosOnly (input : Str) : Except Str (List OutputAction) :=
  parseActionMacrosOnlyGo input [] []

/-- `parse_expansion_actions` (`expansion.rs`): pass 1 then pass 2. -/
def parseExpansionActions (env : Env) (input : Str) (globals : List (Str × Str)) :
    Except Str (List OutputAction) :=
  match renderTemplateMacros env input globals with
  | .error e => .error e
  | .ok templated => parseActionMacrosOnly templated

/-! ## Engine (`src/core/engine.rs`) -/

/-- The `max_trigger_chars` computation of `Engine::new` /
`Engine::reload_config`: the character count of the longest configured
trigger, `0` for an empty rule list. -/
def maxTriggerChars (rules : List ExpansionRule) : Nat :=
  (rules.map (fun r => r.trigger.length)).foldr max 0

/-- `Engine::new`: fresh state for a configuration (no sink attached yet,
empty buffer, no modifiers, no pending expansion). -/
def engineNew (config : AppConfig) : EngineState where
  config := config
  hasOutput := false
  typed_buffer := []
  max_trigger_chars := maxTriggerChars config.expansions
  active_modifiers := {}
  pending_expansion := none

/-- `Engine::truncate_buffer_if_needed`: if the buffer exceeds
`max_trigger_chars + 8` characters, keep only its last
`max_trigger_chars + 8` characters. -/
def truncateBufferIfNeeded (st : EngineState) : EngineState :=
  if st.typed_buffer.length ≤ st.max_trigger_chars + 8 then st
  else
    { st with typed_buffer :=
        st.typed_buffer.drop (st.typed_buffer.length - (st.max_trigger_chars + 8)) }

/-- `Engine::is_boundary_char`. -/
def isBoundaryChar (st : EngineState) (c : Char) : Bool :=
  st.config.boundaryChars.contains c

/-- `map_input_key_to_output_key` (`engine.rs`). -/
def mapInputKeyToOutputKey (key : SpecialInputKey) : Option SpecialKey :=
  match key with
  | .Enter => some SpecialKey.Enter
  | .Tab => some SpecialKey.Tab
  | _ => none

/-- `Engine::execute_expansion`: when a sink is attached, send the
backspaces, then the actions, propagating a sink error immediately (the
`?` operator) — the buffer is cleared only after both calls succeed. -/
def executeExpansion (env : Env) (st : EngineState) (backspaces : Nat)
    (actions : List OutputAction) (notification_body : Option Str) : EResult :=
  if st.hasOutput then
    match env.sinkBackspaces backspaces with
    | some e => (st, [SinkCall.backspaces backspaces], some e)
    | none =>
      match env.sinkActions actions with
      | some e => (st, [SinkCall.backspaces backspaces, SinkCall.actions actions], some e)
      | none =>
        ({ st with typed_buffer := [] },
          [SinkCall.backspaces backspaces, SinkCall.actions actions], none)
  else
    ({ st with typed_buffer := [] }, [], none)

/-- `Engine::dispatch_or_defer_expansion`: with a modifier held, stash the
computed expansion (with the buffer snapshot) as the pending expansion; with
none held, clear any pending expansion and execute now. -/
def dispatchOrDeferExpansion (env : Env) (st : EngineState) (expected_buffer : Str)
    (backspaces : Nat) (actions : List OutputAction) (notification_body : Option Str) :
    EResult :=
  if st.active_modifiers.anyActive then
    let pending := PendingExpansion.mk expected_buffer backspaces actions notification_body
    ({ st with pending_expansion := some pending }, [], none)
  else
    executeExpansion env { st with pending_expansion := none }
      backspaces actions notification_body

/-- `Engine::flush_pending_expansion_if_ready`: with no modifier held, take
the pending expansion (clearing the slot), and execute it only if its
buffer snapshot still equals the live buffer; otherwise it is dropped. -/
def flushPendingExpansionIfReady (env : Env) (st : EngineState) : EResult :=
  if st.active_modifiers.anyActive then (st, [], none)
  else
    match st.pending_expansion with
    | none => (st, [], none)
    | some pending =>
      if pending.expected_buffer ≠ st.typed_buffer then
        ({ st with pending_expansion := none }, [], none)
      else
        executeExpansion env { st with pending_expansion := none }
          pending.backspaces pending.actions pending.notification_body

/-- The rule loop of `Engine::try_expand_immediate`: fire the first rule
whose trigger is a suffix of the typed buffer, parse its expansion, and
dispatch with the trigger's character count as the backspace count. -/
def tryExpandImmediateGo (env : Env) (st : EngineState) : List ExpansionRule → EResult
  | [] => (st, [], none)
  | rule :: rest =>
    if rule.trigger.isSuffixOf st.typed_buffer then
      match parseExpansionActions env rule.expansion st.config.globals with
      | .error e => (st, [], some e)
      | .ok actions =>
        dispatchOrDeferExpansion env st st.typed_buffer rule.trigger.length actions
          (some rule.trigger)
    else tryExpandImmediateGo env st rest

/-- `Engine::try_expand_immediate`. -/
def tryExpandImmediate (env : Env) (st : EngineState) : EResult :=
  tryExpandImmediateGo env st st.config.expansions

/-- The match candidate of `Engine::try_expand_boundary`: a copy of the
typed buffer, with its last character popped when the boundary was a typed
character (that character was already appended by `on_printable_char`). -/
def boundaryCandidate (st : EngineState) (typed_boundary_char : Option Char) : Str :=
  match typed_boundary_char with
  | some _ => st.typed_buffer.dropLast
  | none => st.typed_buffer

/-- The actions `Engine::try_expand_boundary` appends after the parsed
expansion: the boundary character replayed as literal text, and/or the
boundary key replayed as a key tap (when it maps to an output key). -/
def boundaryTailActions (typed_boundary_char : Option Char)
    (typed_boundary_key : Option SpecialInputKey) : List OutputAction :=
  (match typed_boundary_char with
   | some c => [OutputAction.Text [c]]
   | none => []) ++
  (match typed_boundary_key with
   | some key =>
     match mapInputKeyToOutputKey key with
     | some mapped => [OutputAction.Key mapped]
     | none => []
   | none => [])

/-- The delete count of `Engine::try_expand_boundary`: the trigger's
character count, plus one if a boundary character or key is involved. -/
def boundaryDeleteCount (rule : ExpansionRule) (typed_boundary_char : Option Char)
    (typed_boundary_key : Option SpecialInputKey) : Nat :=
  rule.trigger.length +
    (if typed_boundary_char.isSome || typed_boundary_key.isSome then 1 else 0)

/-- The rule loop of `Engine::try_expand_boundary`: fire the first rule
whose trigger is a suffix of the candidate. -/
def tryExpandBoundaryGo (env : Env) (st : EngineState) (typed_boundary_char : Option Char)
    (typed_boundary_key : Option SpecialInputKey) (candidate : Str) :
    List ExpansionRule → EResult
  | [] => (st, [], none)
  | rule :: rest =>
    if rule.trigger.isSuffixOf candidate then
      match parseExpansionActions env rule.expansion st.config.globals with
      | .error e => (st, [], some e)
      | .ok actions =>
        dispatchOrDeferExpansion env st st.typed_buffer
          (boundaryDeleteCount rule typed_boundary_char typed_boundary_key)
          (actions ++ boundaryTailActions typed_boundary_char typed_boundary_key)
          (some rule.trigger)
    else tryExpandBoundaryGo env st typed_boundary_char typed_boundary_key candidate rest

/-- `Engine::try_expand_boundary`. -/
def tryExpandBoundary (env : Env) (st : EngineState) (typed_boundary_char : Option Char)
    (typed_boundary_key : Option SpecialInputKey) : EResult :=
  tryExpandBoundaryGo env st typed_boundary_char typed_boundary_key
    (boundaryCandidate st typed_boundary_char) st.config.expansions

/-- `Engine::on_printable_char`: append the character, truncate, then match
according to the configured mode (in `Boundary` mode only when the typed
character is a boundary character). -/
def onPrintableChar (env : Env) (st : EngineState) (c : Char) : EResult :=
  let st₁ := truncateBufferIfNeeded { st with typed_buffer := st.typed_buffer ++ [c] }
  match st₁.config.match_behavior with
  | .Immediate => tryExpandImmediate env st₁
  | .Boundary =>
    if isBoundaryChar st₁ c then tryExpandBoundary env st₁ (some c) none
    else (st₁, [], none)

/-- `Engine::on_special_key_press`. -/
def onSpecialKeyPress (env : Env) (st : EngineState) (key : SpecialInputKey) : EResult :=
  match key with
  | .Backspace => ({ st with typed_buffer := st.typed_buffer.dropLast }, [], none)
  | .Shift => ({ st with active_modifiers := { st.active_modifiers with shift := true } }, [], none)
  | .Ctrl => ({ st with active_modifiers := { st.active_modifiers with ctrl := true } }, [], none)
  | .Alt => ({ st with active_modifiers := { st.active_modifiers with alt := true } }, [], none)
  | .Meta => ({ st with active_modifiers := { st.active_modifiers with meta := true } }, [], none)
  | .CapsLock => (st, [], none)
  | .Enter =>
    if st.config.match_behavior = MatchBehavior.Boundary then
      tryExpandBoundary env st none (some SpecialInputKey.Enter)
    else ({ st with typed_buffer := [] }, [], none)
  | .Tab =>
    if st.config.match_behavior = MatchBehavior.Boundary then
      tryExpandBoundary env st none (some SpecialInputKey.Tab)
    else ({ st with typed_buffer := [] }, [], none)
  | _ => ({ st with typed_buffer := [] }, [], none)

/-- Clearing one modifier flag, the release half of the modifier tracking
in `Engine::on_special_key_release`. -/
def clearModifierFlag (m : ActiveModifiers) (key : SpecialInputKey) : ActiveModifiers :=
  match key with
  | .Shift => { m with shift := false }
  | .Ctrl => { m with ctrl := false }
  | .Alt => { m with alt := false }
  | .Meta => { m with meta := false }
  | _ => m

/-- The keys `Engine::on_special_key_release` reacts to. -/
def isModifierKey (key : SpecialInputKey) : Bool :=
  match key with
  | .Shift | .Ctrl | .Alt | .Meta => true
  | _ => false

/-- `Engine::on_special_key_release`: a modifier release clears its flag
and then tries to flush the pending expansion; every other release is
ignored. -/
def onSpecialKeyRelease (env : Env) (st : EngineState) (key : SpecialInputKey) : EResult :=
  if isModifierKey key then
    flushPendingExpansionIfReady env
      { st with active_modifiers := clearModifierFlag st.active_modifiers key }
  else (st, [], none)

/-- `Engine::handle_event`: drop injected events; printable presses go to
`on_printable_char` (taking precedence over a special key in the same
event), special presses to `on_special_key_press`, releases to
`on_special_key_release`. -/
def handleEvent (env : Env) (st : EngineState) (event : KeyEvent) : EResult :=
  if event.is_injected then (st, [], none)
  else
    match event.kind with
    | .Press =>
      match event.printable with
      | some c => onPrintableChar env st c
      | none =>
        match event.special with
        | some key => onSpecialKeyPress env st key
        | none => (st, [], none)
    | .Release =>
      match event.special with
      | some key => onSpecialKeyRelease env st key
      | none => (st, [], none)

/-- A press event carrying a printable character (the `press_char` helper
of the engine's test module). -/
def pressChar (c : Char) : KeyEvent where
  kind := KeyEventKind.Press
  printable := some c
  special := none
  is_injected := false

/-- A press event carrying a special key (the `press_special` helper). -/
def pressSpecial (key : SpecialInputKey) : KeyEvent where
  kind := KeyEventKind.Press
  printable := none
  special := some key
  is_injected := false

/-- A release event carrying a special key (the `release_special` helper). -/
def releaseSpecial (key : SpecialInputKey) : KeyEvent where
  kind := KeyEventKind.Release
  printable := none
  special := some key
  is_injected := false

/-- The first rule (in configured order) whose trigger is a suffix of the
given buffer — the selection both `try_expand_immediate` and
`try_expand_boundary` implement with their `for` loop + `break`. -/
def firstSuffixRule (rules : List ExpansionRule) (buf : Str) : Option ExpansionRule :=
  rules.find? (fun rule => rule.trigger.isSuffixOf buf)

/-! ## Concrete fixtures used by witnesses and counterexamples -/

/-- A benign environment: fixed clock strings, a shell oracle echoing its
command, the two emoji shortcodes the repository's tests use, and a sink
that always succeeds. -/
def env0 : Env where
  dateStr := "2026-10-12".toList
  timeStr := "12:00:00".toList
  datetimeStr := "2026-10-12 12:00:00".toList
  cmdResult := fun c => .ok c
  emojiLookup := fun s =>
    if s = "rocket".toList then some "🚀".toList
    else if s = "thumbs_up".toList then some "👍".toList
    else none
  sinkBackspaces := fun _ => none
  sinkActions := fun _ => none

/-- Like `env0`, but `send_backspaces` always fails. -/
def envFailBackspaces : Env :=
  { env0 with sinkBackspaces := fun _ => some ("injection failed".toList) }

/-- An emoji table whose only shortcode contains a dash. -/
def envDashEmoji : Env :=
  { env0 with emojiLookup := fun s => if s = "a-b".toList then some "X".toList else none }

/-- The configuration of the engine test
`immediate_mode_expands_trigger_and_emits_actions`: one rule, trigger
`;g`, expansion `hello`, immediate matching. -/
def cfgImm : AppConfig where
  expansions := [ExpansionRule.mk ";g".toList "hello".toList]
  globals := []
  match_behavior := MatchBehavior.Immediate
  boundary_chars := none

/-- The same single rule under boundary matching. -/
def cfgBnd : AppConfig where
  expansions := [ExpansionRule.mk ";g".toList "hello".toList]
  globals := []
  match_behavior := MatchBehavior.Boundary
  boundary_chars := none

/-- An engine state over `cfgImm` with a sink attached and the buffer
holding a typed `;`. -/
def stImm : EngineState :=
  { engineNew cfgImm with hasOutput := true, typed_buffer := [';'] }

/-- An engine state over `cfgBnd` with a sink attached and the buffer
holding `;g` followed by the typed boundary space. -/
def stBnd : EngineState :=
  { engineNew cfgBnd with hasOutput := true, typed_buffer := ";g ".toList }

/-- An engine state over `cfgImm` with Shift held and the buffer holding a
typed `;` (the deferral scenario of the engine test
`immediate_mode_keeps_buffer_through_modifier_keys`). -/
def stMod : EngineState :=
  { engineNew cfgImm with hasOutput := true, typed_buffer := [';'], active_modifiers := { shift := true } }

/-- The expansion `;g -> hello` computed and held while Shift was down. -/
def pendingHello : PendingExpansion :=
  PendingExpansion.mk (";g".toList) 2 [OutputAction.Text ("hello".toList)] (some (";g".toList))

/-- An engine state holding `pendingHello` with Shift still down and the
buffer still equal to the snapshot. -/
def stModPending : EngineState :=
  { engineNew cfgImm with hasOutput := true, typed_buffer := ";g".toList, active_modifiers := { shift := true }, pending_expansion := some pendingHello }

/-- Like `stModPending`, but the buffer has since changed. -/
def stModStale : EngineState :=
  { stModPending with typed_buffer := "x".toList }

/-- The literal text of one macro occurrence: the body between double
opening and double closing braces. -/
def macroLit (body : Str) : Str := '{' :: '{' :: (body ++ ['}', '}'])

/-- The state `on_printable_char` reaches right before its match check:
the character appended and the buffer truncated. -/
def afterAppend (st : EngineState) (c : Char) : EngineState :=
  truncateBufferIfNeeded { st with typed_buffer := st.typed_buffer ++ [c] }

/-! ## Helper lemmas -/

theorem truncate_config (st : EngineState) : (truncateBufferIfNeeded st).config = st.config := by
  unfold truncateBufferIfNeeded
  split <;> rfl

theorem truncate_hasOutput (st : EngineState) :
    (truncateBufferIfNeeded st).hasOutput = st.hasOutput := by
  unfold truncateBufferIfNeeded
  split <;> rfl

theorem truncate_modifiers (st : EngineState) :
    (truncateBufferIfNeeded st).active_modifiers = st.active_modifiers := by
  unfold truncateBufferIfNeeded
  split <;> rfl

theorem truncate_pending (st : EngineState) :
    (truncateBufferIfNeeded st).pending_expansion = st.pending_expansion := by
  unfold truncateBufferIfNeeded
  split <;> rfl

theorem truncate_max (st : EngineState) :
    (truncateBufferIfNeeded st).max_trigger_chars = st.max_trigger_chars := by
  unfold truncateBufferIfNeeded
  split <;> rfl

theorem truncate_buffer_le (st : EngineState) :
    (truncateBufferIfNeeded st).typed_buffer.length ≤ st.max_trigger_chars + 8 := by
  unfold truncateBufferIfNeeded
  split
  · omega
  · simp only [List.length_drop]
    omega

theorem firstSuffixRule_nil (buf : Str) : firstSuffixRule [] buf = none := rfl

theorem tryExpandImmediateGo_of_none (env : Env) (st : EngineState) :
    ∀ rules : List ExpansionRule, firstSuffixRule rules st.typed_buffer = none →
      tryExpandImmediateGo env st rules = (st, [], none) := by
  intro rules
  induction rules with
  | nil => intro _; rfl
  | cons rule rest ih =>
    intro h
    rw [firstSuffixRule] at h
    cases hs : rule.trigger.isSuffixOf st.typed_buffer with
    | true =>
      simp only [List.find?_cons, hs] at h
      exact absurd h (by simp)
    | false =>
      simp only [List.find?_cons, hs] at h
      rw [tryExpandImmediateGo, if_neg (by simp [hs])]
      exact ih h

theorem tryExpandImmediateGo_of_some (env : Env) (st : EngineState) :
    ∀ (rules : List ExpansionRule) (rule : ExpansionRule),
      firstSuffixRule rules st.typed_buffer = some rule →
      tryExpandImmediateGo env st rules =
        match parseExpansionActions env rule.expansion st.config.globals with
        | .error e => (st, [], some e)
        | .ok actions =>
          dispatchOrDeferExpansion env st st.typed_buffer rule.trigger.length actions
            (some rule.trigger) := by
  intro rules
  induction rules with
  | nil => intro rule h; simp [firstSuffixRule] at h
  | cons r rest ih =>
    intro rule h
    rw [firstSuffixRule] at h
    cases hs : r.trigger.isSuffixOf st.typed_buffer with
    | true =>
      simp only [List.find?_cons, hs] at h
      simp only [Option.some.injEq] at h
      subst h
      simp [tryExpandImmediateGo, hs]
    | false =>
      simp only [List.find?_cons, hs] at h
      rw [tryExpandImmediateGo, if_neg (by simp [hs])]
      exact ih rule h

theorem tryExpandBoundaryGo_of_none (env : Env) (st : EngineState)
    (obc : Option Char) (obk : Option SpecialInputKey) (candidate : Str) :
    ∀ rules : List ExpansionRule, firstSuffixRule rules candidate = none →
      tryExpandBoundaryGo env st obc obk candidate rules = (st, [], none) := by
  intro rules
  induction rules with
  | nil => intro _; rfl
  | cons rule rest ih =>
    intro h
    rw [firstSuffixRule] at h
    cases hs : rule.trigger.isSuffixOf candidate with
    | true =>
      simp only [List.find?_cons, hs] at h
      exact absurd h (by simp)
    | false =>
      simp only [List.find?_cons, hs] at h
      rw [tryExpandBoundaryGo, if_neg (by simp [hs])]
      exact ih h

theorem tryExpandBoundaryGo_of_some (env : Env) (st : EngineState)
    (obc : Option Char) (obk : Option SpecialInputKey) (candidate : Str) :
    ∀ (rules : List ExpansionRule) (rule : ExpansionRule),
      firstSuffixRule rules candidate = some rule →
      tryExpandBoundaryGo env st obc obk candidate rules =
        match parseExpansionActions env rule.expansion st.config.globals with
        | .error e => (st, [], some e)
        | .ok actions =>
          dispatchOrDeferExpansion env st st.typed_buffer
            (boundaryDeleteCount rule obc obk)
            (actions ++ boundaryTailActions obc obk) (some rule.trigger) := by
  intro rules
  induction rules with
  | nil => intro rule h; simp [firstSuffixRule] at h
  | cons r rest ih =>
    intro rule h
    rw [firstSuffixRule] at h
    cases hs : r.trigger.isSuffixOf candidate with
    | true =>
      simp only [List.find?_cons, hs] at h
      simp only [Option.some.injEq] at h
      subst h
      simp [tryExpandBoundaryGo, hs]
    | false =>
      simp only [List.find?_cons, hs] at h
      rw [tryExpandBoundaryGo, if_neg (by simp [hs])]
      exact ih rule h

theorem executeExpansion_buffer (env : Env) (st : EngineState) (bs : Nat)
    (acts : List OutputAction) (nb : Option Str) :
    ((executeExpansion env st bs acts nb).1).typed_buffer = st.typed_buffer ∨
    ((executeExpansion env st bs acts nb).1).typed_buffer = [] := by
  unfold executeExpansion
  repeat' split
  all_goals simp

theorem dispatchOrDefer_buffer (env : Env) (st : EngineState) (eb : Str) (bs : Nat)
    (acts : List OutputAction) (nb : Option Str) :
    ((dispatchOrDeferExpansion env st eb bs acts nb).1).typed_buffer = st.typed_buffer ∨
    ((dispatchOrDeferExpansion env st eb bs acts nb).1).typed_buffer = [] := by
  unfold dispatchOrDeferExpansion
  split
  · left; rfl
  · exact executeExpansion_buffer env { st with pending_expansion := none } bs acts nb

theorem flushPending_buffer (env : Env) (st : EngineState) :
    ((flushPendingExpansionIfReady env st).1).typed_buffer = st.typed_buffer ∨
    ((flushPendingExpansionIfReady env st).1).typed_buffer = [] := by
  unfold flushPendingExpansionIfReady
  split
  · left; rfl
  · split
    · left; rfl
    · split
      · left; rfl
      · exact executeExpansion_buffer env { st with pending_expansion := none } _ _ _

theorem tryExpandImmediateGo_buffer (env : Env) (st : EngineState) :
    ∀ rules : List ExpansionRule,
      ((tryExpandImmediateGo env st rules).1).typed_buffer = st.typed_buffer ∨
      ((tryExpandImmediateGo env st rules).1).typed_buffer = [] := by
  intro rules
  induction rules with
  | nil => left; rfl
  | cons rule rest ih =>
    rw [tryExpandImmediateGo]
    split
    · split
      · left; rfl
      · exact dispatchOrDefer_buffer env st _ _ _ _
    · exact ih

theorem tryExpandBoundaryGo_buffer (env : Env) (st : EngineState) (obc : Option Char)
    (obk : Option SpecialInputKey) (candidate : Str) :
    ∀ rules : List ExpansionRule,
      ((tryExpandBoundaryGo env st obc obk candidate rules).1).typed_buffer = st.typed_buffer ∨
      ((tryExpandBoundaryGo env st obc obk candidate rules).1).typed_buffer = [] := by
  intro rules
  induction rules with
  | nil => left; rfl
  | cons rule rest ih =>
    rw [tryExpandBoundaryGo]
    split
    · split
      · left; rfl
      · exact dispatchOrDefer_buffer env st _ _ _ _
    · exact ih

theorem suffix_drop_iff {t l : List Char} {k : Nat} (hlen : t.length + k ≤ l.length) :
    t <:+ l.drop k ↔ t <:+ l := by
  constructor
  · intro h
    exact h.trans (List.drop_suffix k l)
  · intro h
    rw [List.suffix_iff_eq_drop] at h
    rw [List.suffix_iff_eq_drop, List.length_drop, List.drop_drop]
    have heq : k + (l.length - k - t.length) = l.length - t.length := by omega
    rw [heq]
    exact h

theorem le_maxTriggerChars {rules : List ExpansionRule} {rule : ExpansionRule}
    (h : rule ∈ rules) : rule.trigger.length ≤ maxTriggerChars rules := by
  induction rules with
  | nil => simp at h
  | cons r rest ih =>
    have hstep : maxTriggerChars (r :: rest) = max r.trigger.length (maxTriggerChars rest) := by
      simp [maxTriggerChars]
    rw [hstep]
    cases h with
    | head => exact Nat.le_max_left _ _
    | tail _ hmem => exact Nat.le_trans (ih hmem) (Nat.le_max_right _ _)

theorem onPrintableChar_bound (env : Env) (st : EngineState) (c : Char) :
    ((onPrintableChar env st c).1).typed_buffer.length ≤ st.max_trigger_chars + 8 := by
  have hT : (truncateBufferIfNeeded { st with typed_buffer := st.typed_buffer ++ [c] }).typed_buffer.length ≤
      st.max_trigger_chars + 8 :=
    truncate_buffer_le { st with typed_buffer := st.typed_buffer ++ [c] }
  simp only [onPrintableChar]
  generalize hA : truncateBufferIfNeeded { st with typed_buffer := st.typed_buffer ++ [c] } = A
  rw [hA] at hT
  cases hm : A.config.match_behavior with
  | Immediate =>
    rcases tryExpandImmediateGo_buffer env A A.config.expansions with h | h
    · rw [tryExpandImmediate, h]; exact hT
    · rw [tryExpandImmediate, h]; simp
  | Boundary =>
    by_cases hb : isBoundaryChar A c = true
    · rw [if_pos hb]
      rcases tryExpandBoundaryGo_buffer env A (some c) none (boundaryCandidate A (some c))
        A.config.expansions with h | h
      · rw [tryExpandBoundary, h]; exact hT
      · rw [tryExpandBoundary, h]; simp
    · rw [if_neg hb]
      exact hT

theorem onSpecialKeyPress_bound (env : Env) (st : EngineState) (key : SpecialInputKey)
    (hlen : st.typed_buffer.length ≤ st.max_trigger_chars + 8) :
    ((onSpecialKeyPress env st key).1).typed_buffer.length ≤ st.max_trigger_chars + 8 := by
  cases key
  all_goals simp only [onSpecialKeyPress]
  case Backspace =>
    simp only [List.length_dropLast]
    omega
  case Shift => exact hlen
  case Ctrl => exact hlen
  case Alt => exact hlen
  case Meta => exact hlen
  case CapsLock => exact hlen
  case Enter =>
    by_cases hbm : st.config.match_behavior = MatchBehavior.Boundary
    · rw [if_pos hbm, tryExpandBoundary]
      rcases tryExpandBoundaryGo_buffer env st none (some SpecialInputKey.Enter)
        (boundaryCandidate st none) st.config.expansions with h | h
      · rw [h]; exact hlen
      · rw [h]; simp
    · rw [if_neg hbm]
      simp
  case Tab =>
    by_cases hbm : st.config.match_behavior = MatchBehavior.Boundary
    · rw [if_pos hbm, tryExpandBoundary]
      rcases tryExpandBoundaryGo_buffer env st none (some SpecialInputKey.Tab)
        (boundaryCandidate st none) st.config.expansions with h | h
      · rw [h]; exact hlen
      · rw [h]; simp
    · rw [if_neg hbm]
      simp
  all_goals simp

theorem onSpecialKeyRelease_bound (env : Env) (st : EngineState) (key : SpecialInputKey)
    (hlen : st.typed_buffer.length ≤ st.max_trigger_chars + 8) :
    ((onSpecialKeyRelease env st key).1).typed_buffer.length ≤ st.max_trigger_chars + 8 := by
  rw [onSpecialKeyRelease]
  by_cases hk : isModifierKey key = true
  · rw [if_pos hk]
    rcases flushPending_buffer env
      { st with active_modifiers := clearModifierFlag st.active_modifiers key } with h | h
    · rw [h]; exact hlen
    · rw [h]; simp
  · rw [if_neg hk]
    exact hlen

/-! ## Claims -/

/-- C8: after every `handle_event`, the typed buffer holds at most
`max_trigger_chars + 8` characters (the bound is re-established by
truncation right after each printable append, before the match check, and
no other event grows the buffer); and for every configured rule, truncation
never changes whether the rule's trigger matches as a suffix of the buffer,
because the bound keeps at least `max_trigger_chars ≥ len(trigger)`
characters. -/
theorem c8_buffer_bound_and_match_preserved :
    (∀ (env : Env) (st : EngineState) (event : KeyEvent),
      st.typed_buffer.length ≤ st.max_trigger_chars + 8 →
      ((handleEvent env st event).1).typed_buffer.length ≤ st.max_trigger_chars + 8) ∧
    (∀ (st : EngineState) (rule : ExpansionRule),
      st.max_trigger_chars = maxTriggerChars st.config.expansions →
      rule ∈ st.config.expansions →
      (rule.trigger.isSuffixOf (truncateBufferIfNeeded st).typed_buffer = true ↔
        rule.trigger.isSuffixOf st.typed_buffer = true)) := by
  constructor
  · intro env st event hlen
    obtain ⟨kind, printable, special, inj⟩ := event
    rw [handleEvent]
    cases inj with
    | true =>
      rw [if_pos rfl]
      exact hlen
    | false =>
      rw [if_neg (by simp)]
      cases kind with
      | Press =>
        cases printable with
        | some c => exact onPrintableChar_bound env st c
        | none =>
          cases special with
          | some key => exact onSpecialKeyPress_bound env st key hlen
          | none => exact hlen
      | Release =>
        cases special with
        | some key => exact onSpecialKeyRelease_bound env st key hlen
        | none => exact hlen
  · intro st rule hwf hr
    unfold truncateBufferIfNeeded
    split
    · exact Iff.rfl
    · next hgt =>
      simp only [List.isSuffixOf_iff_suffix]
      apply suffix_drop_iff
      have h1 : rule.trigger.length ≤ maxTriggerChars st.config.expansions :=
        le_maxTriggerChars hr
      rw [← hwf] at h1
      omega

/-- Witness for C8 at a concrete state: one keystroke on `stImm` keeps the
buffer within the bound, and truncating a 12-character buffer over `cfgImm`
(bound 2 + 8) still matches the `;g` trigger. -/
theorem c8_witness :
    (stImm.typed_buffer.length ≤ stImm.max_trigger_chars + 8 ∧
      ((handleEvent env0 stImm (pressChar 'x')).1).typed_buffer.length ≤
        stImm.max_trigger_chars + 8) ∧
    (stImm.max_trigger_chars = maxTriggerChars stImm.config.expansions ∧
      (ExpansionRule.mk ";g".toList "hello".toList) ∈ stImm.config.expansions ∧
      (((ExpansionRule.mk ";g".toList "hello".toList).trigger.isSuffixOf
          (truncateBufferIfNeeded { stImm with typed_buffer := "xxxxxxxxxx;g".toList }).typed_buffer = true) ↔
        ((ExpansionRule.mk ";g".toList "hello".toList).trigger.isSuffixOf
          ("xxxxxxxxxx;g".toList) = true))) := by
  constructor
  · constructor
    · decide
    · exact c8_buffer_bound_and_match_preserved.1 env0 stImm (pressChar 'x') (by decide)
  · refine ⟨by decide, by decide, ?_⟩
    exact c8_buffer_bound_and_match_preserved.2
      { stImm with typed_buffer := "xxxxxxxxxx;g".toList }
      (ExpansionRule.mk ";g".toList "hello".toList) (by decide) (by decide)

theorem executeExpansion_pending (env : Env) (st : EngineState) (bs : Nat)
    (acts : List OutputAction) (nb : Option Str) :
    ((executeExpansion env st bs acts nb).1).pending_expansion = st.pending_expansion := by
  unfold executeExpansion
  repeat' split
  all_goals rfl

theorem flushPending_clears (env : Env) (st : EngineState)
    (hmods : st.active_modifiers.anyActive = false) :
    ((flushPendingExpansionIfReady env st).1).pending_expansion = none := by
  unfold flushPendingExpansionIfReady
  rw [if_neg (by simp [hmods])]
  split
  · next heq => exact heq
  · next p heq =>
    split
    · rfl
    · rw [executeExpansion_pending env { st with pending_expansion := none }
        p.backspaces p.actions p.notification_body]

/-- C4 counterexample: with a sink whose `send_backspaces` fails,
`execute_expansion` returns the error having issued only the backspace
call, and the typed buffer is NOT cleared (the state is returned
unchanged, still holding the typed `;`), contradicting the claim that the
buffer is cleared regardless of sink errors. -/
theorem c4_counterexample :
    executeExpansion envFailBackspaces stImm 2 [OutputAction.Text ("hello".toList)] none =
      (stImm, [SinkCall.backspaces 2], some ("injection failed".toList)) ∧
    stImm.typed_buffer = [';'] := by
  constructor
  · rfl
  · rfl

/-- C4 amended: `execute_expansion` sends the backspaces then the actions
and clears the buffer only when both sink calls succeed (or when no sink is
attached); a failing sink call propagates its error immediately, before the
buffer-clearing line, so the buffer survives.  The pending expansion, by
contrast, is cleared by both dispatch paths before execution, so it is gone
regardless of the sink outcome. -/
theorem c4_sink_error_amended :
    ∀ (env : Env) (st : EngineState) (bs : Nat) (acts : List OutputAction) (nb : Option Str),
      (st.hasOutput = true → env.sinkBackspaces bs = none → env.sinkActions acts = none →
        executeExpansion env st bs acts nb =
          ({ st with typed_buffer := [] },
            [SinkCall.backspaces bs, SinkCall.actions acts], none)) ∧
      (∀ e, st.hasOutput = true → env.sinkBackspaces bs = some e →
        executeExpansion env st bs acts nb = (st, [SinkCall.backspaces bs], some e)) ∧
      (∀ e, st.hasOutput = true → env.sinkBackspaces bs = none → env.sinkActions acts = some e →
        executeExpansion env st bs acts nb =
          (st, [SinkCall.backspaces bs, SinkCall.actions acts], some e)) ∧
      (st.hasOutput = false →
        executeExpansion env st bs acts nb = ({ st with typed_buffer := [] }, [], none)) ∧
      (st.active_modifiers.anyActive = false →
        ((dispatchOrDeferExpansion env st st.typed_buffer bs acts nb).1).pending_expansion = none ∧
        ((flushPendingExpansionIfReady env st).1).pending_expansion = none) := by
  intro env st bs acts nb
  refine ⟨?_, ?_, ?_, ?_, ?_⟩
  · intro ho hb ha
    rw [executeExpansion, if_pos ho, hb, ha]
  · intro e ho hb
    rw [executeExpansion, if_pos ho, hb]
  · intro e ho hb ha
    rw [executeExpansion, if_pos ho, hb, ha]
  · intro ho
    rw [executeExpansion, if_neg (by simp [ho])]
  · intro hmods
    constructor
    · rw [dispatchOrDeferExpansion, if_neg (by simp [hmods])]
      rw [executeExpansion_pending env { st with pending_expansion := none } bs acts nb]
    · exact flushPending_clears env st hmods

/-- Witness for C4's amended theorem at a concrete input: with the benign
sink both calls succeed and the buffer is cleared. -/
theorem c4_witness :
    executeExpansion env0 stImm 2 [OutputAction.Text ("hello".toList)] none =
      ({ stImm with typed_buffer := [] },
        [SinkCall.backspaces 2, SinkCall.actions [OutputAction.Text ("hello".toList)]], none) :=
  (c4_sink_error_amended env0 stImm 2 [OutputAction.Text ("hello".toList)] none).1 rfl rfl rfl

/-- C5 counterexample: the empty global table is trivially acyclic, yet
rendering the input consisting of the single unknown macro `Z` fails with
an unsupported-macro error — an acyclic table does not make
`render_template_macros` succeed on every input. -/
theorem c5_counterexample :
    renderTemplateMacros env0 (macroLit ("Z".toList)) [] =
      .error (unsupportedMacroMsg ("Z".toList)) := by
  simp [renderTemplateMacros, renderTemplateMacrosInternal, macroLit, splitAtMacroEnd,
    trimStr, isRustWhitespace, splitOnceChar, asciiUpperStr, asciiUpperChar,
    isTemplateMacroWithArgument, lookupGlobalCaseInsensitive, env0]

/-- C5 amended: template rendering always terminates — witnessed by
`renderTemplateMacrosInternal` being a total Lean function (its
lexicographic termination measure is the number of global names not yet on
the resolution stack, then the input length).  Re-entering a name already
on the resolution stack fails with an error naming the full cycle chain:
with the table `A -> \x7b\x7bB\x7d\x7d, B -> \x7b\x7bA\x7d\x7d`, rendering
`A` yields exactly the message `global macro cycle detected: A -> B -> A`.
On an acyclic table rendering returns (successfully when every macro is
known, e.g. nested globals resolve), but an unknown macro still fails —
see the counterexample. -/
theorem c5_termination_and_cycle_amended :
    renderTemplateMacros env0 (macroLit ("A".toList))
        [("A".toList, macroLit ("B".toList)), ("B".toList, macroLit ("A".toList))] =
      .error (cycleMsg ["A".toList, "B".toList, "A".toList]) ∧
    cycleMsg ["A".toList, "B".toList, "A".toList] =
      "global macro cycle detected: A -> B -> A".toList ∧
    renderTemplateMacros env0 (macroLit ("SIGNOFF".toList))
        [("GREETING".toList, "Hello".toList),
         ("SIGNOFF".toList, macroLit ("GREETING".toList) ++ " x".toList)] =
      .ok ("Hello x".toList) := by
  refine ⟨?_, by decide, ?_⟩
  · simp [renderTemplateMacros, renderTemplateMacrosInternal, macroLit, splitAtMacroEnd,
      trimStr, isRustWhitespace, splitOnceChar, asciiUpperStr, asciiUpperChar,
      isTemplateMacroWithArgument, lookupGlobalCaseInsensitive, eqIgnoreAsciiCase, env0]
  · simp [renderTemplateMacros, renderTemplateMacrosInternal, macroLit, splitAtMacroEnd,
      trimStr, isRustWhitespace, splitOnceChar, asciiUpperStr, asciiUpperChar,
      isTemplateMacroWithArgument, lookupGlobalCaseInsensitive, eqIgnoreAsciiCase, env0]

/-- C9 counterexample: with a shortcode table containing only the dashed
code `a-b`, rendering `EMOJI:a-b` succeeds while rendering `EMOJI:a_b` —
the same shortcode with every dash replaced by an underscore — fails:
dashes and underscores are not interchangeable in the underscore-to-dash
direction, because the lookup candidates only rewrite dashes. -/
theorem c9_counterexample :
    renderTemplateMacros envDashEmoji (macroLit ("EMOJI:a-b".toList)) [] =
      .ok ("X".toList) ∧
    replaceCharStr ("a-b".toList) '-' '_' = "a_b".toList ∧
    renderTemplateMacros envDashEmoji (macroLit ("EMOJI:a_b".toList)) [] =
      .error (unknownEmojiMsg ("a_b".toList)) := by
  refine ⟨?_, by decide, ?_⟩
  · simp [renderTemplateMacros, renderTemplateMacrosInternal, macroLit, splitAtMacroEnd,
      trimStr, isRustWhitespace, splitOnceChar, asciiUpperStr, asciiUpperChar,
      isTemplateMacroWithArgument, firstEmojiLookupHit, emojiLookupCandidates,
      replaceCharStr, removeCharStr, asciiLowerStr, asciiLowerChar, trimColonsStr,
      envDashEmoji, env0]
  · simp [renderTemplateMacros, renderTemplateMacrosInternal, macroLit, splitAtMacroEnd,
      trimStr, isRustWhitespace, splitOnceChar, asciiUpperStr, asciiUpperChar,
      isTemplateMacroWithArgument, firstEmojiLookupHit, emojiLookupCandidates,
      replaceCharStr, removeCharStr, asciiLowerStr, asciiLowerChar, trimColonsStr,
      envDashEmoji, env0]

/-- C9 amended: emoji lookup normalizes the rendered shortcode (trim,
strip surrounding colons, ASCII-lowercase) and then tries, in order, the
normalized code, the code with every dash replaced by an underscore, and
the code with dashes removed — so a dashed shortcode falls back to its
underscore form (first conjunct), an unknown code in all three forms is a
render failure (second conjunct), and the spec's example, including case
and colon normalization, renders (third conjunct).  The replacement is
one-directional: underscores are never rewritten to dashes (see the
counterexample). -/
theorem c9_emoji_candidates_amended :
    (∀ (env : Env) (n : Str) (emo : Str),
      env.emojiLookup n = none →
      env.emojiLookup (replaceCharStr n '-' '_') = some emo →
      firstEmojiLookupHit env n = some emo) ∧
    (∀ (env : Env) (globals : List (Str × Str)) (s s' : Str) (stack : List Str),
      renderTemplateMacrosInternal env globals s stack = .ok s' →
      (∀ cand ∈ emojiLookupCandidates (asciiLowerStr (trimColonsStr (trimStr s'))),
        env.emojiLookup cand = none) →
      renderEmojiMacroArg env globals s stack =
        .error (unknownEmojiMsg (asciiLowerStr (trimColonsStr (trimStr s'))))) ∧
    renderTemplateMacros env0 (macroLit ("EMOJI: :Thumbs-Up: ".toList)) [] =
      .ok ("👍".toList) := by
  refine ⟨?_, ?_, ?_⟩
  · intro env n emo h1 h2
    simp [firstEmojiLookupHit, emojiLookupCandidates, List.findSome?_cons, h1, h2]
  · intro env globals s s' stack hrender hnone
    rw [renderEmojiMacroArg, hrender]
    have hmiss : firstEmojiLookupHit env (asciiLowerStr (trimColonsStr (trimStr s'))) = none := by
      rw [firstEmojiLookupHit, List.findSome?_eq_none_iff]
      exact hnone
    simp [hmiss]
  · simp [renderTemplateMacros, renderTemplateMacrosInternal, macroLit, splitAtMacroEnd,
      trimStr, isRustWhitespace, splitOnceChar, asciiUpperStr, asciiUpperChar,
      isTemplateMacroWithArgument, firstEmojiLookupHit, emojiLookupCandidates,
      replaceCharStr, removeCharStr, asciiLowerStr, asciiLowerChar, trimColonsStr, env0]

/-- Witness for C9's amended theorem at concrete inputs: the dashed code
`thumbs-up` falls back to the table's `thumbs_up` entry, and a code unknown
in all three candidate forms fails. -/
theorem c9_witness :
    firstEmojiLookupHit env0 ("thumbs-up".toList) = some ("👍".toList) ∧
    renderEmojiMacroArg env0 [] ("nope".toList) [] =
      .error (unknownEmojiMsg ("nope".toList)) := by
  constructor
  · exact c9_emoji_candidates_amended.1 env0 ("thumbs-up".toList) ("👍".toList)
      (by decide) (by decide)
  · have h := c9_emoji_candidates_amended.2.1 env0 [] ("nope".toList) ("nope".toList) []
      (by simp [renderTemplateMacrosInternal]) (by decide)
    simpa using h

theorem pamoGo_cons_ne (c c₂ : Char) (rest₂ : Str) (acc : List OutputAction) (buf : Str)
    (h : ¬(c = '{' ∧ c₂ = '{')) :
    parseActionMacrosOnlyGo (c :: c₂ :: rest₂) acc buf =
      parseActionMacrosOnlyGo (c₂ :: rest₂) acc (buf ++ [c]) := by
  rw [parseActionMacrosOnlyGo.eq_def]
  simp only [if_neg h]

theorem pamoGo_macro_text (rest₂ body after : Str) (acc : List OutputAction) (buf : Str)
    (hsplit : splitAtMacroEnd rest₂ = some (body, after)) (hc : body.contains ':' = false) :
    parseActionMacrosOnlyGo ('{' :: '{' :: rest₂) acc buf =
      parseActionMacrosOnlyGo after (acc ++ if buf = [] then [] else [OutputAction.Text buf])
        ('{' :: '{' :: (body ++ ['}', '}'])) := by
  rw [parseActionMacrosOnlyGo.eq_def]
  simp only [and_self, if_true]
  split
  · next heq =>
    rw [hsplit] at heq
    exact absurd heq (by simp)
  · next b a heq =>
    rw [hsplit] at heq
    injection heq with hpair
    injection hpair with h1 h2
    subst h1
    subst h2
    rw [if_neg (by rw [hc]; simp)]

theorem pamoGo_macro_action (rest₂ body after : Str) (acc : List OutputAction) (buf : Str)
    (a : OutputAction)
    (hsplit : splitAtMacroEnd rest₂ = some (body, after)) (hc : body.contains ':' = true)
    (hp : parseActionMacroBody (trimStr body) = .ok a) :
    parseActionMacrosOnlyGo ('{' :: '{' :: rest₂) acc buf =
      parseActionMacrosOnlyGo after
        ((acc ++ if buf = [] then [] else [OutputAction.Text buf]) ++ [a]) [] := by
  rw [parseActionMacrosOnlyGo.eq_def]
  simp only [and_self, if_true]
  split
  · next heq =>
    rw [hsplit] at heq
    exact absurd heq (by simp)
  · next b a' heq =>
    rw [hsplit] at heq
    injection heq with hpair
    injection hpair with h1 h2
    subst h1
    subst h2
    rw [if_pos hc, hp]

theorem pamoGo_macro_error (rest₂ body after : Str) (acc : List OutputAction) (buf : Str)
    (e : Str)
    (hsplit : splitAtMacroEnd rest₂ = some (body, after)) (hc : body.contains ':' = true)
    (hp : parseActionMacroBody (trimStr body) = .error e) :
    parseActionMacrosOnlyGo ('{' :: '{' :: rest₂) acc buf = .error e := by
  rw [parseActionMacrosOnlyGo.eq_def]
  simp only [and_self, if_true]
  split
  · next heq =>
    rw [hsplit] at heq
    exact absurd heq (by simp)
  · next b a' heq =>
    rw [hsplit] at heq
    injection heq with hpair
    injection hpair with h1 h2
    subst h1
    subst h2
    rw [if_pos hc, hp]

theorem pamoGo_literal :
    ∀ (t : Str), '{' ∉ t → ∀ (input : Str) (acc : List OutputAction) (buf : Str),
      parseActionMacrosOnlyGo (t ++ input) acc buf =
        parseActionMacrosOnlyGo input acc (buf ++ t) := by
  intro t
  induction t with
  | nil =>
    intro _ input acc buf
    simp
  | cons c t' ih =>
    intro hnb input acc buf
    have hc : ¬ c = '{' := fun h => hnb (by rw [h]; exact List.mem_cons_self _ _)
    have ht' : '{' ∉ t' := fun h => hnb (List.mem_cons_of_mem c h)
    rw [List.cons_append]
    cases htl : t' ++ input with
    | nil =>
      have ht'e : t' = [] := by
        cases t' with
        | nil => rfl
        | cons a b => simp at htl
      subst ht'e
      have hin : input = [] := by simpa using htl
      subst hin
      rw [parseActionMacrosOnlyGo.eq_def]
      simp [parseActionMacrosOnlyGo]
    | cons c₂ rest₂ =>
      rw [pamoGo_cons_ne c c₂ rest₂ acc buf (fun hcc => hc hcc.1), ← htl,
        ih ht' input acc (buf ++ [c])]
      simp

theorem pamoGo_nil (acc : List OutputAction) (buf : Str) :
    parseActionMacrosOnlyGo [] acc buf =
      .ok (acc ++ if buf = [] then [] else [OutputAction.Text buf]) := by
  rw [parseActionMacrosOnlyGo.eq_def]

/-- C7 counterexample: a pass-2 macro body without a colon is NOT a parse
failure — `parse_action_macros_only` keeps the whole occurrence
(\x7b\x7bX\x7d\x7d) as literal text and returns it as a `Text` action. -/
theorem c7_counterexample :
    parseActionMacrosOnly (macroLit ("X".toList)) =
      .ok [OutputAction.Text (macroLit ("X".toList))] := by
  simp [parseActionMacrosOnly, parseActionMacrosOnlyGo, macroLit, splitAtMacroEnd]

/-- C7 amended: the pass-2 scan accumulates literal runs into a pending
text buffer that is flushed whenever a macro opening \x7b\x7b is
encountered and once more for trailing text; a body containing `:` whose
(trimmed, case-folded) name is none of KEY, SLEEP_MS, MOVE_CARET and
CARET_MOVE fails inside `parse_action_macro` with an unsupported-macro
error that aborts the whole scan, but a body lacking `:` is appended
literally (braces included) to the new pending text run instead of
failing. -/
theorem c7_flush_amended :
    ∀ (t1 body t2 : Str) (a : OutputAction),
      '{' ∉ t1 →
      (('{' ∉ t2 → t2 ≠ [] →
        splitAtMacroEnd (body ++ '}' :: '}' :: t2) = some (body, t2) →
        body.contains ':' = true →
        parseActionMacroBody (trimStr body) = .ok a →
        parseActionMacrosOnly (t1 ++ macroLit body ++ t2) =
          .ok ((if t1 = [] then [] else [OutputAction.Text t1]) ++ [a] ++
            [OutputAction.Text t2])) ∧
      (splitAtMacroEnd (body ++ ['}', '}']) = some (body, []) →
        body.contains ':' = false →
        parseActionMacrosOnly (t1 ++ macroLit body) =
          .ok ((if t1 = [] then [] else [OutputAction.Text t1]) ++
            [OutputAction.Text (macroLit body)])) ∧
      (∀ (name value : Str),
        splitOnceChar ':' (trimStr body) = some (name, value) →
        asciiUpperStr (trimStr name) ≠ "KEY".toList →
        asciiUpperStr (trimStr name) ≠ "SLEEP_MS".toList →
        asciiUpperStr (trimStr name) ≠ "MOVE_CARET".toList →
        asciiUpperStr (trimStr name) ≠ "CARET_MOVE".toList →
        parseActionMacroBody (trimStr body) =
          .error (unsupportedMacroMsg (asciiUpperStr (trimStr name))) ∧
        (body.contains ':' = true →
          splitAtMacroEnd (body ++ '}' :: '}' :: t2) = some (body, t2) →
          parseActionMacrosOnly (t1 ++ macroLit body ++ t2) =
            .error (unsupportedMacroMsg (asciiUpperStr (trimStr name)))))) := by
  intro t1 body t2 a h1
  refine ⟨?_, ?_, ?_⟩
  · intro h2 h3 hsplit hc hp
    rw [parseActionMacrosOnly]
    have hshape : t1 ++ macroLit body ++ t2 = t1 ++ ('{' :: '{' :: (body ++ '}' :: '}' :: t2)) := by
      simp [macroLit]
    rw [hshape, pamoGo_literal t1 h1 _ [] []]
    simp only [List.nil_append]
    rw [pamoGo_macro_action _ body t2 [] t1 a hsplit hc hp]
    simp only [List.nil_append]
    have hlit := pamoGo_literal t2 h2 []
      (([] ++ if t1 = [] then [] else [OutputAction.Text t1]) ++ [a]) []
    simp only [List.append_nil, List.nil_append] at hlit
    rw [hlit, pamoGo_nil]
    simp [h3]
  · intro hsplit hc
    rw [parseActionMacrosOnly]
    have hshape : t1 ++ macroLit body = t1 ++ ('{' :: '{' :: (body ++ '}' :: '}' :: [])) := by
      simp [macroLit]
    rw [hshape, pamoGo_literal t1 h1 _ [] []]
    simp only [List.nil_append]
    rw [pamoGo_macro_text _ body [] [] t1 hsplit hc]
    rw [pamoGo_nil]
    simp [macroLit]
  · intro name value hsplit1 hKey hSleep hMove hCaret
    have hfail : parseActionMacroBody (trimStr body) =
        .error (unsupportedMacroMsg (asciiUpperStr (trimStr name))) := by
      rw [parseActionMacroBody.eq_def]
      rw [hsplit1]
      simp only [if_neg hKey, if_neg hSleep, if_neg (not_or.mpr ⟨hMove, hCaret⟩)]
    refine ⟨hfail, ?_⟩
    intro hc hsplit
    rw [parseActionMacrosOnly]
    have hshape : t1 ++ macroLit body ++ t2 = t1 ++ ('{' :: '{' :: (body ++ '}' :: '}' :: t2)) := by
      simp [macroLit]
    rw [hshape, pamoGo_literal t1 h1 _ [] []]
    exact pamoGo_macro_error _ body t2 [] t1 _ hsplit hc hfail

/-- Witness for C7's amended theorem at concrete inputs: text around a
`KEY:ENTER` macro flushes into separate actions, a colonless body stays
literal text after a flushed prefix, and a `FOO:bar` body aborts the whole
scan with an unsupported-macro error naming FOO. -/
theorem c7_witness :
    parseActionMacrosOnly ("ab".toList ++ macroLit ("KEY:ENTER".toList) ++ "cd".toList) =
      .ok [OutputAction.Text ("ab".toList), OutputAction.Key SpecialKey.Enter,
        OutputAction.Text ("cd".toList)] ∧
    parseActionMacrosOnly ("ab".toList ++ macroLit ("X".toList)) =
      .ok [OutputAction.Text ("ab".toList), OutputAction.Text (macroLit ("X".toList))] ∧
    parseActionMacroBody ("FOO:bar".toList) =
      .error (unsupportedMacroMsg ("FOO".toList)) ∧
    parseActionMacrosOnly ("ab".toList ++ macroLit ("FOO:bar".toList) ++ "cd".toList) =
      .error (unsupportedMacroMsg ("FOO".toList)) := by
  refine ⟨?_, ?_, ?_, ?_⟩
  · have h := (c7_flush_amended ("ab".toList) ("KEY:ENTER".toList) ("cd".toList)
      (OutputAction.Key SpecialKey.Enter) (by decide)).1
      (by decide) (by decide) (by decide) (by decide) (by decide)
    simpa using h
  · have h := (c7_flush_amended ("ab".toList) ("X".toList) [] (OutputAction.Key SpecialKey.Enter)
      (by decide)).2.1 (by decide) (by decide)
    simpa using h
  · have h := ((c7_flush_amended ("ab".toList) ("FOO:bar".toList) ("cd".toList)
      (OutputAction.Key SpecialKey.Enter) (by decide)).2.2 ("FOO".toList) ("bar".toList)
      (by decide) (by decide) (by decide) (by decide) (by decide)).1
    simpa [trimStr, isRustWhitespace, asciiUpperStr, asciiUpperChar] using h
  · have h := ((c7_flush_amended ("ab".toList) ("FOO:bar".toList) ("cd".toList)
      (OutputAction.Key SpecialKey.Enter) (by decide)).2.2 ("FOO".toList) ("bar".toList)
      (by decide) (by decide) (by decide) (by decide) (by decide)).2
      (by decide) (by decide)
    simpa [asciiUpperStr, asciiUpperChar, trimStr, isRustWhitespace] using h

/-- One macro step of pass 1, re-expressed through the source-shaped
callees: on a macro occurrence, the inlined renderer behaves exactly as
`render_template_macro_with_argument` (for a `name: value` body with a
template name), literal preservation (for any other `name: value` body),
or `render_template_macro` (for an argument-less body), followed by
rendering the remaining input.  This certifies the inlined
`renderTemplateMacrosInternal` against the standalone definitions that
mirror the source functions one-to-one. -/
theorem renderTMI_step (env : Env) (globals : List (Str × Str)) (body rest : Str)
    (stack : List Str)
    (hsplit : splitAtMacroEnd (body ++ '}' :: '}' :: rest) = some (body, rest)) :
    renderTemplateMacrosInternal env globals ('{' :: '{' :: (body ++ '}' :: '}' :: rest)) stack =
      (match (match splitOnceChar ':' (trimStr body) with
        | some (name, value) =>
          if isTemplateMacroWithArgument name then
            renderTemplateMacroWithArgument env globals (trimStr name) (trimStr value) stack
          else .ok (macroLit body)
        | none => renderTemplateMacroName env globals body stack) with
       | .error e => .error e
       | .ok piece =>
         match renderTemplateMacrosInternal env globals rest stack with
         | .error e => .error e
         | .ok r => .ok (piece ++ r)) := by
  rw [renderTemplateMacrosInternal.eq_def]
  simp only [and_self, if_true, dite_true]
  split
  · next heq =>
    rw [hsplit] at heq
    exact absurd heq (by simp)
  · next b a heq =>
    rw [hsplit] at heq
    injection heq with hpair
    injection hpair with hb1 ha1
    subst hb1
    subst ha1
    cases hcolon : splitOnceChar ':' (trimStr body) with
    | none =>
      cases hlk : lookupGlobalCaseInsensitive globals (asciiUpperStr (trimStr body)) with
      | none => simp [renderTemplateMacroName, resolveGlobalTemplateMacroName, hlk]
      | some v =>
        simp only [renderTemplateMacroName, resolveGlobalTemplateMacroName, hlk]
        by_cases hmem : asciiUpperStr (trimStr body) ∈ stack
        · simp [hmem]
        · simp [hmem]
    | some p =>
      obtain ⟨name, value⟩ := p
      by_cases hname : isTemplateMacroWithArgument name = true
      · simp only [hname, if_true, renderTemplateMacroWithArgument, runLinuxCommandMacroArg,
          renderEmojiMacroArg]
      · simp only [Bool.not_eq_true] at hname
        simp [hname, macroLit]

/-- C6 counterexample: pass-1 output can contain an unresolved template
macro.  With the global `A -> \x7b` and input
`\x7b\x7bA\x7d\x7d\x7bDATE\x7d\x7d`, rendering succeeds and produces
exactly the text `\x7b\x7bDATE\x7d\x7d` — the resolved `A` recombines with
the following literal text into a DATE macro occurrence, which the
single-pass renderer never re-scans; the second conjunct shows that this
very output is a resolvable template macro (rendering it again yields the
date), so it is an unresolved template macro in the output. -/
theorem c6_counterexample :
    renderTemplateMacros env0 (macroLit ("A".toList) ++ ('{' :: ("DATE".toList ++ ['}', '}'])))
        [("A".toList, ['{'])] =
      .ok (macroLit ("DATE".toList)) ∧
    renderTemplateMacros env0 (macroLit ("DATE".toList)) [] = .ok env0.dateStr ∧
    env0.dateStr ≠ macroLit ("DATE".toList) := by
  refine ⟨?_, ?_, by decide⟩
  · simp [renderTemplateMacros, renderTemplateMacrosInternal, macroLit, splitAtMacroEnd,
      trimStr, isRustWhitespace, splitOnceChar, asciiUpperStr, asciiUpperChar,
      isTemplateMacroWithArgument, lookupGlobalCaseInsensitive, eqIgnoreAsciiCase, env0]
  · simp [renderTemplateMacros, renderTemplateMacrosInternal, macroLit, splitAtMacroEnd,
      trimStr, isRustWhitespace, splitOnceChar, asciiUpperStr, asciiUpperChar,
      isTemplateMacroWithArgument, lookupGlobalCaseInsensitive, env0]

/-- C6 amended: within one pass, each macro occurrence is handled per the
claimed rule — a `name: value` body whose name is not a template-macro
name is preserved as literal \x7b\x7b...\x7d\x7d text for pass 2 (first
conjunct, fully general), while `DATE`, `TIME`, `DATETIME`, globals,
`CMD:` and `EMOJI:` are resolved (second conjunct, with `KEY:ENTER`
passing through literally); but the claim's guarantee that the output
never contains an unresolved template macro fails for recombined text
(see the counterexample) — rendering is one-pass and does not re-scan its
output. -/
theorem c6_pass1_amended :
    (∀ (env : Env) (globals : List (Str × Str)) (body rest : Str) (stack : List Str)
      (name value : Str),
      splitAtMacroEnd (body ++ '}' :: '}' :: rest) = some (body, rest) →
      splitOnceChar ':' (trimStr body) = some (name, value) →
      isTemplateMacroWithArgument name = false →
      renderTemplateMacrosInternal env globals ('{' :: '{' :: (body ++ '}' :: '}' :: rest)) stack =
        match renderTemplateMacrosInternal env globals rest stack with
        | .error e => .error e
        | .ok r => .ok (macroLit body ++ r)) ∧
    renderTemplateMacros env0
        ("a ".toList ++ macroLit ("KEY:ENTER".toList) ++ macroLit ("DATE".toList) ++
          macroLit ("TIME".toList) ++ macroLit ("DATETIME".toList) ++ macroLit ("G".toList) ++
          macroLit ("CMD:echo hi".toList) ++ macroLit ("EMOJI:rocket".toList))
        [("G".toList, "gv".toList)] =
      .ok ("a ".toList ++ macroLit ("KEY:ENTER".toList) ++ env0.dateStr ++ env0.timeStr ++
        env0.datetimeStr ++ "gv".toList ++ "echo hi".toList ++ "🚀".toList) := by
  constructor
  · intro env globals body rest stack name value hsplit hcolon hname
    rw [renderTMI_step env globals body rest stack hsplit, hcolon]
    simp only [hname, Bool.false_eq_true, if_false]
  · simp [renderTemplateMacros, renderTemplateMacrosInternal, macroLit, splitAtMacroEnd,
      trimStr, isRustWhitespace, splitOnceChar, asciiUpperStr, asciiUpperChar,
      isTemplateMacroWithArgument, lookupGlobalCaseInsensitive, eqIgnoreAsciiCase,
      firstEmojiLookupHit, emojiLookupCandidates, replaceCharStr, removeCharStr,
      asciiLowerStr, asciiLowerChar, trimColonsStr, trimEndCrLf, env0]

/-- Witness for C6's amended theorem at a concrete input: the non-template
body `KEY:ENTER` is preserved literally in front of the rendering of the
remaining input. -/
theorem c6_witness :
    renderTemplateMacrosInternal env0 []
        ('{' :: '{' :: ("KEY:ENTER".toList ++ '}' :: '}' :: "z".toList)) [] =
      .ok (macroLit ("KEY:ENTER".toList) ++ "z".toList) := by
  have h := c6_pass1_amended.1 env0 [] ("KEY:ENTER".toList) ("z".toList) []
    ("KEY".toList) ("ENTER".toList) (by decide) (by decide) (by decide)
  rw [h]
  simp [renderTemplateMacrosInternal]

theorem afterAppend_config (st : EngineState) (c : Char) :
    (afterAppend st c).config = st.config := by
  rw [afterAppend, truncate_config]

theorem afterAppend_modifiers (st : EngineState) (c : Char) :
    (afterAppend st c).active_modifiers = st.active_modifiers := by
  rw [afterAppend, truncate_modifiers]

theorem afterAppend_hasOutput (st : EngineState) (c : Char) :
    (afterAppend st c).hasOutput = st.hasOutput := by
  rw [afterAppend, truncate_hasOutput]

theorem onPrintableChar_immediate (env : Env) (st : EngineState) (c : Char)
    (hmode : st.config.match_behavior = MatchBehavior.Immediate) :
    onPrintableChar env st c = tryExpandImmediate env (afterAppend st c) := by
  have h : (truncateBufferIfNeeded
      { st with typed_buffer := st.typed_buffer ++ [c] }).config.match_behavior =
      MatchBehavior.Immediate := by
    rw [truncate_config]
    exact hmode
  simp only [onPrintableChar]
  split
  · rfl
  · next heq =>
    rw [h] at heq
    exact absurd heq (by simp)

/-- C1: in `Immediate` mode with no modifier active, a printable keystroke
fires an expansion exactly when, after the append and the truncation, some
rule's trigger is a suffix of the typed buffer.  If no trigger matches,
the event produces no sink call and only the buffer append; if one does,
the FIRST rule in configured order whose trigger is a suffix fires (rule
order, not longest match), and the sink receives exactly one
`send_backspaces` with the trigger's character count followed by exactly
one `send_actions` with the rule's parsed action list, after which the
buffer is cleared. -/
theorem c1_immediate_first_suffix_rule_fires :
    ∀ (env : Env) (st : EngineState) (c : Char),
      st.config.match_behavior = MatchBehavior.Immediate →
      st.active_modifiers.anyActive = false →
      (firstSuffixRule st.config.expansions (afterAppend st c).typed_buffer = none →
        handleEvent env st (pressChar c) = (afterAppend st c, [], none)) ∧
      (∀ (rule : ExpansionRule) (acts : List OutputAction),
        firstSuffixRule st.config.expansions (afterAppend st c).typed_buffer = some rule →
        parseExpansionActions env rule.expansion st.config.globals = .ok acts →
        st.hasOutput = true →
        env.sinkBackspaces rule.trigger.length = none →
        env.sinkActions acts = none →
        handleEvent env st (pressChar c) =
          ({ afterAppend st c with typed_buffer := [], pending_expansion := none },
            [SinkCall.backspaces rule.trigger.length, SinkCall.actions acts], none)) := by
  intro env st c hmode hmods
  have hstep : handleEvent env st (pressChar c) = tryExpandImmediate env (afterAppend st c) := by
    show onPrintableChar env st c = _
    exact onPrintableChar_immediate env st c hmode
  have hexp : (afterAppend st c).config.expansions = st.config.expansions := by
    rw [afterAppend_config]
  constructor
  · intro hnone
    rw [hstep, tryExpandImmediate, hexp]
    exact tryExpandImmediateGo_of_none env (afterAppend st c) st.config.expansions hnone
  · intro rule acts hfind hparse hout hsb hsa
    rw [hstep, tryExpandImmediate, hexp]
    rw [tryExpandImmediateGo_of_some env (afterAppend st c) st.config.expansions rule hfind]
    rw [afterAppend_config, hparse]
    simp only [dispatchOrDeferExpansion, afterAppend_modifiers, hmods, Bool.false_eq_true,
      if_false, executeExpansion, afterAppend_hasOutput, hout, if_true, hsb, hsa]

/-- Witness for C1 at a concrete input: typing `g` after `;` under the
single rule `;g -> hello` fires exactly one backspace call (2) and one
action call. -/
theorem c1_witness :
    handleEvent env0 stImm (pressChar 'g') =
      ({ afterAppend stImm 'g' with typed_buffer := [], pending_expansion := none },
        [SinkCall.backspaces 2, SinkCall.actions [OutputAction.Text ("hello".toList)]], none) := by
  have h := (c1_immediate_first_suffix_rule_fires env0 stImm 'g' rfl rfl).2
    (ExpansionRule.mk (";g".toList) ("hello".toList)) [OutputAction.Text ("hello".toList)]
    (by decide)
    (by simp [parseExpansionActions, renderTemplateMacros, renderTemplateMacrosInternal,
      parseActionMacrosOnly, parseActionMacrosOnlyGo, stImm, engineNew, cfgImm])
    rfl rfl rfl
  simpa using h

/-- C2: in `Boundary` mode, when the first matching rule fires,
`try_expand_boundary` dispatches exactly the delete count
`boundaryDeleteCount` and the parsed action list followed by
`boundaryTailActions`; the auxiliary conjuncts evaluate these for the
three call shapes: a typed boundary character gives `len(trigger) + 1`
deletions with the character re-emitted as a trailing literal `Text`
action, Enter/Tab give `len(trigger) + 1` with the mapped key tap
appended, and with no boundary involved the delete count is exactly the
trigger length. -/
theorem c2_boundary_delete_count_and_tail :
    ∀ (env : Env) (st : EngineState) (obc : Option Char) (obk : Option SpecialInputKey)
      (rule : ExpansionRule) (acts : List OutputAction),
      st.active_modifiers.anyActive = false →
      st.hasOutput = true →
      firstSuffixRule st.config.expansions (boundaryCandidate st obc) = some rule →
      parseExpansionActions env rule.expansion st.config.globals = .ok acts →
      env.sinkBackspaces (boundaryDeleteCount rule obc obk) = none →
      env.sinkActions (acts ++ boundaryTailActions obc obk) = none →
      (tryExpandBoundary env st obc obk =
        ({ st with typed_buffer := [], pending_expansion := none },
          [SinkCall.backspaces (boundaryDeleteCount rule obc obk),
           SinkCall.actions (acts ++ boundaryTailActions obc obk)], none)) ∧
      (∀ ch, obc = some ch → obk = none →
        boundaryDeleteCount rule obc obk = rule.trigger.length + 1 ∧
        boundaryTailActions obc obk = [OutputAction.Text [ch]]) ∧
      (∀ k m, obc = none → obk = some k → mapInputKeyToOutputKey k = some m →
        boundaryDeleteCount rule obc obk = rule.trigger.length + 1 ∧
        boundaryTailActions obc obk = [OutputAction.Key m]) ∧
      (obc = none → obk = none →
        boundaryDeleteCount rule obc obk = rule.trigger.length ∧
        boundaryTailActions obc obk = []) := by
  intro env st obc obk rule acts hmods hout hfind hparse hsb hsa
  refine ⟨?_, ?_, ?_, ?_⟩
  · rw [tryExpandBoundary]
    rw [tryExpandBoundaryGo_of_some env st obc obk (boundaryCandidate st obc)
      st.config.expansions rule hfind]
    rw [hparse]
    simp only [dispatchOrDeferExpansion, hmods, Bool.false_eq_true, if_false,
      executeExpansion, hout, if_true, hsb, hsa]
  · intro ch hc hk
    subst hc
    subst hk
    simp [boundaryDeleteCount, boundaryTailActions]
  · intro k m hc hk hm
    subst hc
    subst hk
    simp [boundaryDeleteCount, boundaryTailActions, hm]
  · intro hc hk
    subst hc
    subst hk
    simp [boundaryDeleteCount, boundaryTailActions]

/-- Witness for C2 at a concrete input: with the rule `;g -> hello` and
buffer `;g` followed by a typed space, the fired expansion deletes 3
characters (trigger length 2 plus the boundary) and ends by re-emitting
the space as literal text. -/
theorem c2_witness :
    tryExpandBoundary env0 stBnd (some ' ') none =
      ({ stBnd with typed_buffer := [], pending_expansion := none },
        [SinkCall.backspaces 3,
         SinkCall.actions [OutputAction.Text ("hello".toList), OutputAction.Text [' ']]],
        none) ∧
    boundaryDeleteCount (ExpansionRule.mk (";g".toList) ("hello".toList)) (some ' ') none = 3 := by
  have h := c2_boundary_delete_count_and_tail env0 stBnd (some ' ') none
    (ExpansionRule.mk (";g".toList) ("hello".toList)) [OutputAction.Text ("hello".toList)]
    rfl rfl (by decide)
    (by simp [parseExpansionActions, renderTemplateMacros, renderTemplateMacrosInternal,
      parseActionMacrosOnly, parseActionMacrosOnlyGo, stBnd, engineNew, cfgBnd])
    rfl rfl
  constructor
  · have h1 := h.1
    simpa using h1
  · have h2 := (h.2.1 ' ' rfl rfl).1
    simpa using h2

/-- C3: modifier deferral.  (1) A trigger match completed while a modifier
is held produces no sink call: the computed expansion is stored as the
single pending expansion together with the buffer snapshot.  (2) A
modifier release that leaves zero modifiers active executes the pending
expansion with exactly one `send_backspaces`/`send_actions` pair when its
snapshot still equals the live buffer.  (3) Otherwise the pending
expansion is silently discarded: the slot is emptied with no sink call and
no re-matching (the buffer is left untouched). -/
theorem c3_modifier_deferral :
    (∀ (env : Env) (st : EngineState) (c : Char) (rule : ExpansionRule)
      (acts : List OutputAction),
      st.config.match_behavior = MatchBehavior.Immediate →
      st.active_modifiers.anyActive = true →
      firstSuffixRule st.config.expansions (afterAppend st c).typed_buffer = some rule →
      parseExpansionActions env rule.expansion st.config.globals = .ok acts →
      handleEvent env st (pressChar c) =
        ({ afterAppend st c with pending_expansion := some (PendingExpansion.mk (afterAppend st c).typed_buffer rule.trigger.length acts (some rule.trigger)) },
          [], none)) ∧
    (∀ (env : Env) (st : EngineState) (key : SpecialInputKey) (p : PendingExpansion),
      isModifierKey key = true →
      (clearModifierFlag st.active_modifiers key).anyActive = false →
      st.pending_expansion = some p →
      p.expected_buffer = st.typed_buffer →
      st.hasOutput = true →
      env.sinkBackspaces p.backspaces = none →
      env.sinkActions p.actions = none →
      handleEvent env st (releaseSpecial key) =
        ({ st with active_modifiers := clearModifierFlag st.active_modifiers key, pending_expansion := none, typed_buffer := [] },
          [SinkCall.backspaces p.backspaces, SinkCall.actions p.actions], none)) ∧
    (∀ (env : Env) (st : EngineState) (key : SpecialInputKey) (p : PendingExpansion),
      isModifierKey key = true →
      (clearModifierFlag st.active_modifiers key).anyActive = false →
      st.pending_expansion = some p →
      p.expected_buffer ≠ st.typed_buffer →
      handleEvent env st (releaseSpecial key) =
        ({ st with active_modifiers := clearModifierFlag st.active_modifiers key, pending_expansion := none }, [], none)) := by
  refine ⟨?_, ?_, ?_⟩
  · intro env st c rule acts hmode hmods hfind hparse
    have hstep : handleEvent env st (pressChar c) = tryExpandImmediate env (afterAppend st c) := by
      show onPrintableChar env st c = _
      exact onPrintableChar_immediate env st c hmode
    have hexp : (afterAppend st c).config.expansions = st.config.expansions := by
      rw [afterAppend_config]
    rw [hstep, tryExpandImmediate, hexp]
    rw [tryExpandImmediateGo_of_some env (afterAppend st c) st.config.expansions rule hfind]
    rw [afterAppend_config, hparse]
    simp only [dispatchOrDeferExpansion, afterAppend_modifiers, hmods, if_true]
  · intro env st key p hk hnone hp hexp hout hsb hsa
    have hstep : handleEvent env st (releaseSpecial key) = onSpecialKeyRelease env st key := rfl
    rw [hstep, onSpecialKeyRelease, if_pos hk, flushPendingExpansionIfReady]
    rw [if_neg (by simp [hnone])]
    simp only [hp]
    rw [if_neg (by simp [hexp])]
    simp only [executeExpansion, hout, if_true, hsb, hsa]
  · intro env st key p hk hnone hp hexp
    have hstep : handleEvent env st (releaseSpecial key) = onSpecialKeyRelease env st key := rfl
    rw [hstep, onSpecialKeyRelease, if_pos hk, flushPendingExpansionIfReady]
    rw [if_neg (by simp [hnone])]
    simp only [hp]
    rw [if_pos (by simp [hexp])]

/-- Witness for C3 at concrete states: pressing `g` with Shift held defers
(no sink call, pending stored); releasing Shift with the buffer unchanged
fires exactly one backspaces/actions pair; releasing Shift after the
buffer changed discards the pending expansion silently. -/
theorem c3_witness :
    (handleEvent env0 stMod (pressChar 'g') =
      ({ afterAppend stMod 'g' with pending_expansion := some (PendingExpansion.mk ((afterAppend stMod 'g').typed_buffer) 2 [OutputAction.Text ("hello".toList)] (some (";g".toList))) }, [], none)) ∧
    (handleEvent env0 stModPending (releaseSpecial SpecialInputKey.Shift) =
      ({ stModPending with active_modifiers := clearModifierFlag stModPending.active_modifiers SpecialInputKey.Shift, pending_expansion := none, typed_buffer := [] },
        [SinkCall.backspaces 2, SinkCall.actions [OutputAction.Text ("hello".toList)]], none)) ∧
    (handleEvent env0 stModStale (releaseSpecial SpecialInputKey.Shift) =
      ({ stModStale with active_modifiers := clearModifierFlag stModStale.active_modifiers SpecialInputKey.Shift, pending_expansion := none }, [], none)) := by
  refine ⟨?_, ?_, ?_⟩
  · exact c3_modifier_deferral.1 env0 stMod 'g'
      (ExpansionRule.mk (";g".toList) ("hello".toList)) [OutputAction.Text ("hello".toList)]
      rfl rfl (by decide)
      (by simp [parseExpansionActions, renderTemplateMacros, renderTemplateMacrosInternal,
        parseActionMacrosOnly, parseActionMacrosOnlyGo, stMod, engineNew, cfgImm])
  · exact c3_modifier_deferral.2.1 env0 stModPending SpecialInputKey.Shift pendingHello
      rfl (by decide) rfl rfl rfl rfl rfl
  · exact c3_modifier_deferral.2.2 env0 stModStale SpecialInputKey.Shift pendingHello
      rfl (by decide) rfl (by decide)

/-- C10: pressing Enter or Tab in Boundary mode when no rule's trigger is a
suffix of the typed buffer leaves the engine state completely unchanged
(the buffer persists, no sink calls, no error), whereas in Immediate mode
every Enter/Tab press clears the typed buffer. -/
theorem c10_boundary_enter_tab_frame (env : Env) (st : EngineState) (key : SpecialInputKey)
    (hk : key = SpecialInputKey.Enter ∨ key = SpecialInputKey.Tab) :
    (st.config.match_behavior = MatchBehavior.Boundary →
      firstSuffixRule st.config.expansions st.typed_buffer = none →
      handleEvent env st (pressSpecial key) = (st, [], none)) ∧
    (st.config.match_behavior = MatchBehavior.Immediate →
      handleEvent env st (pressSpecial key) = ({ st with typed_buffer := [] }, [], none)) := by
  constructor
  · intro hb hnone
    have hcand : boundaryCandidate st none = st.typed_buffer := rfl
    rcases hk with hk | hk <;> subst hk
    · show onSpecialKeyPress env st SpecialInputKey.Enter = (st, [], none)
      simp only [onSpecialKeyPress]
      rw [if_pos hb]
      show tryExpandBoundaryGo env st none (some SpecialInputKey.Enter)
        (boundaryCandidate st none) st.config.expansions = (st, [], none)
      rw [hcand]
      exact tryExpandBoundaryGo_of_none env st none (some SpecialInputKey.Enter)
        st.typed_buffer st.config.expansions hnone
    · show onSpecialKeyPress env st SpecialInputKey.Tab = (st, [], none)
      simp only [onSpecialKeyPress]
      rw [if_pos hb]
      show tryExpandBoundaryGo env st none (some SpecialInputKey.Tab)
        (boundaryCandidate st none) st.config.expansions = (st, [], none)
      rw [hcand]
      exact tryExpandBoundaryGo_of_none env st none (some SpecialInputKey.Tab)
        st.typed_buffer st.config.expansions hnone
  · intro hi
    rcases hk with hk | hk <;> subst hk
    · show onSpecialKeyPress env st SpecialInputKey.Enter = _
      simp only [onSpecialKeyPress]
      rw [if_neg (by rw [hi]; intro h; cases h)]
    · show onSpecialKeyPress env st SpecialInputKey.Tab = _
      simp only [onSpecialKeyPress]
      rw [if_neg (by rw [hi]; intro h; cases h)]

/-- Witness for C10: over the boundary configuration, with the buffer
holding `;g ` (no trigger is a suffix), Enter leaves the state untouched;
over the immediate configuration Tab clears the buffer. -/
theorem c10_witness :
    (handleEvent env0 stBnd (pressSpecial SpecialInputKey.Enter) = (stBnd, [], none)) ∧
    (handleEvent env0 stImm (pressSpecial SpecialInputKey.Tab) =
      ({ stImm with typed_buffer := [] }, [], none)) := by
  constructor
  · exact (c10_boundary_enter_tab_frame env0 stBnd SpecialInputKey.Enter (Or.inl rfl)).1 rfl
      (by simp [firstSuffixRule, stBnd, engineNew, cfgBnd, List.isSuffixOf])
  · exact (c10_boundary_enter_tab_frame env0 stImm SpecialInputKey.Tab (Or.inr rfl)).2 rfl
